import Mathlib

/-!
Verification of the fugw repository's numerical core:
`src/fugw/solvers/utils.py` (the `scaling`, `mm`, `dc` UOT solvers and the
generalized KL divergence) and `src/fugw/mappings/sparse_barycenter.py`
(the sparse barycenter fitter).

Modelling conventions.

Scalars: the code computes with floating-point tensors.  We shallowly embed
the arithmetic over an arbitrary `LinearOrderedField K` (instantiated at `ℝ`
when a claim's mathematics needs real analysis, and at `ℚ` when a witness has
to be evaluated), with the transcendental kernels (`exp`, `log`, `sqrt`,
`pow`) passed in as explicit function arguments; claim theorems about real
analysis instantiate them with `Real.exp`, `Real.log`, ….  Rounding and
overflow are not modelled (values are exact field elements); the IEEE
non-finite values NaN/±Inf, which several claims are about, are modelled by
the carrier `Flt K` below.

Tensors: a matrix is a pair of dimensions together with an entry function;
sums over a dimension are folds over `List.range`.  The torch reductions
(`sum`, `min`, `max`) propagate NaN, as the embedded ones do.

Fallible code (`raise ValueError`) is embedded in `Except String`.
-/

namespace Fugw

/-! ## IEEE-style scalars: `Flt K`

A floating-point value idealized as an exact field element or one of the
three non-finite values.  Arithmetic follows IEEE-754 semantics for the
non-finite cases (`nan` propagates; `inf + ninf = nan`; `0 * inf = nan`;
`0 / 0 = nan`; `x / 0 = ±inf` for `x ≠ 0`; comparisons with `nan` are
false), except that overflow and signed zero are not modelled.
-/

inductive Flt (K : Type) where
  | nan : Flt K
  | inf : Flt K
  | ninf : Flt K
  | real : K → Flt K
deriving DecidableEq, Repr

namespace Flt

variable {K : Type} [LinearOrderedField K]

def isNan : Flt K → Bool
  | nan => true
  | _ => false

def isInf : Flt K → Bool
  | inf => true
  | ninf => true
  | _ => false

def neg : Flt K → Flt K
  | nan => nan
  | inf => ninf
  | ninf => inf
  | real x => real (-x)

def add : Flt K → Flt K → Flt K
  | nan, _ => nan
  | _, nan => nan
  | inf, ninf => nan
  | ninf, inf => nan
  | inf, _ => inf
  | _, inf => inf
  | ninf, _ => ninf
  | _, ninf => ninf
  | real x, real y => real (x + y)

def sub (a b : Flt K) : Flt K := add a (neg b)

/-- Sign-aware multiplication; `0 * (±inf) = nan`. -/
def mul : Flt K → Flt K → Flt K
  | nan, _ => nan
  | _, nan => nan
  | inf, inf => inf
  | inf, ninf => ninf
  | ninf, inf => ninf
  | ninf, ninf => inf
  | inf, real x => if x = 0 then nan else if 0 < x then inf else ninf
  | real x, inf => if x = 0 then nan else if 0 < x then inf else ninf
  | ninf, real x => if x = 0 then nan else if 0 < x then ninf else inf
  | real x, ninf => if x = 0 then nan else if 0 < x then ninf else inf
  | real x, real y => real (x * y)

/-- Division; `0 / 0 = nan`, `x / 0 = ±inf`, `±inf / ±inf = nan`,
`x / ±inf = 0` (signed zero not modelled). -/
def div : Flt K → Flt K → Flt K
  | nan, _ => nan
  | _, nan => nan
  | inf, inf => nan
  | inf, ninf => nan
  | ninf, inf => nan
  | ninf, ninf => nan
  | inf, real x => if 0 ≤ x then inf else ninf
  | ninf, real x => if 0 ≤ x then ninf else inf
  | real _, inf => real 0
  | real _, ninf => real 0
  | real x, real y =>
    if y = 0 then (if x = 0 then nan else if 0 < x then inf else ninf)
    else real (x / y)

def abs : Flt K → Flt K
  | nan => nan
  | inf => inf
  | ninf => inf
  | real x => real |x|

/-- NaN-propagating maximum, as in torch's `max` reduction. -/
def fmax : Flt K → Flt K → Flt K
  | nan, _ => nan
  | _, nan => nan
  | inf, _ => inf
  | _, inf => inf
  | ninf, b => b
  | a, ninf => a
  | real x, real y => real (max x y)

/-- NaN-propagating minimum, as in torch's `min` reduction. -/
def fmin : Flt K → Flt K → Flt K
  | nan, _ => nan
  | _, nan => nan
  | ninf, _ => ninf
  | _, ninf => ninf
  | inf, b => b
  | a, inf => a
  | real x, real y => real (min x y)

/-- `a < b` as an IEEE comparison: any comparison with `nan` is false. -/
def flt : Flt K → Flt K → Bool
  | nan, _ => false
  | _, nan => false
  | inf, _ => false
  | ninf, ninf => false
  | ninf, _ => true
  | real _, inf => true
  | real _, ninf => false
  | real x, real y => decide (x < y)

/-- `exp` lifted to `Flt`, given the scalar kernel `kexp`
(overflow of the finite case is not modelled). -/
def fexp (kexp : K → K) : Flt K → Flt K
  | nan => nan
  | inf => inf
  | ninf => real 0
  | real x => real (kexp x)

/-- `sqrt` lifted to `Flt`, given the scalar kernel `ksqrt`. -/
def fsqrt (ksqrt : K → K) : Flt K → Flt K
  | nan => nan
  | inf => inf
  | ninf => nan
  | real x => if x < 0 then nan else real (ksqrt x)

/-- `x ** e` for a finite exponent `e`, given the scalar kernel `kpow`.
A negative finite base yields `nan` (the integral-exponent case is not
modelled: all exponents in this code lie in `[-1, 1]`). -/
def fpow (kpow : K → K → K) : Flt K → K → Flt K
  | nan, e => if e = 0 then real 1 else nan
  | inf, e => if e = 0 then real 1 else if 0 < e then inf else real 0
  | ninf, e => if e = 0 then real 1 else nan
  | real x, e =>
    if x = 0 then (if e = 0 then real 1 else if 0 < e then real 0 else inf)
    else if x < 0 then nan
    else real (kpow x e)

/-- Sum of `f 0, …, f (n-1)` starting from `real 0`, as a torch `sum`
reduction over one dimension (an empty reduction yields `0`). -/
def rsum (n : ℕ) (f : ℕ → Flt K) : Flt K :=
  (List.range n).foldl (fun a i => add a (f i)) (real 0)

/-- NaN-propagating max of `f 0, …, f (n-1)`; `ninf` on an empty range. -/
def rmax (n : ℕ) (f : ℕ → Flt K) : Flt K :=
  (List.range n).foldl (fun a i => fmax a (f i)) ninf

/-- NaN-propagating min of `f 0, …, f (n-1)`; `inf` on an empty range. -/
def rmin (n : ℕ) (f : ℕ → Flt K) : Flt K :=
  (List.range n).foldl (fun a i => fmin a (f i)) inf

end Flt

/-! ## Divergence utilities (`fugw/solvers/utils.py`)

`compute_approx_kl` and `compute_kl` act elementwise and then reduce, and
every non-finite elementwise term is replaced by `0`
(`torch.nan_to_num(p * (p / q).log(), nan=0.0, posinf=0.0, neginf=0.0)`).
For exact (non-overflowing) inputs the product `x * log (x / y)` is
non-finite exactly when `x` and `y` do not have the same strict sign:
`0 * log _ = nan` or `0 * (-inf)` when `x = 0`; `x * log (±inf) ∈ {inf, nan}`
when `y = 0 ≠ x`; `log` of a negative ratio is `nan`.  So the embedded term
is the product when `x` and `y` share a strict sign and `0` otherwise. -/

def klTerm {K : Type} [LinearOrderedField K] (klog : K → K) (x y : K) : K :=
  if (0 < x ∧ 0 < y) ∨ (x < 0 ∧ y < 0) then x * klog (x / y) else 0

/-- `compute_approx_kl(p, q)` from `fugw/solvers/utils.py`. -/
def compute_approx_kl {K : Type} [LinearOrderedField K] (klog : K → K)
    {n : ℕ} (p q : Fin n → K) : K :=
  ∑ i, klTerm klog (p i) (q i)

/-- `compute_kl(p, q)` from `fugw/solvers/utils.py`:
`compute_approx_kl(p, q) - p.sum() + q.sum()`. -/
def compute_kl {K : Type} [LinearOrderedField K] (klog : K → K)
    {n : ℕ} (p q : Fin n → K) : K :=
  compute_approx_kl klog p q - (∑ i, p i) + (∑ i, q i)

/-- Modelled from the spec: the generalized KL formula
`Σ p·log(p/q) − Σp + Σq` read literally over the extended reals, with only
the conventions the spec grants: `0·log0 = 0` and a `0/0` ratio contributes
`0`.  A term with `p i > 0` and `q i = 0` is genuinely `+∞` here. -/
noncomputable def klTermSpec (x y : ℝ) : EReal :=
  if x = 0 then 0 else if y = 0 then ⊤ else ((x * Real.log (x / y) : ℝ) : EReal)

/-- Modelled from the spec: `generalizedKL(p, q)` as the spec states it. -/
noncomputable def generalizedKLSpec {n : ℕ} (p q : Fin n → ℝ) : EReal :=
  (∑ i, klTermSpec (p i) (q i)) - ((∑ i, p i : ℝ) : EReal) + ((∑ i, q i : ℝ) : EReal)

/-! ## A `for idx in range(niters)` loop with a conditional `break`

All three solvers run `for idx in range(niters): x = step(x); if brk(idx,
x_prev, x): break`.  `loopBreak step brk fuel idx x` runs `fuel` more
iterations starting at loop index `idx`; `loopBreak_eq_iterate` (below)
characterizes it as a pure `step`-iterate whose count is decided by the
first loop index at which the break condition fires. -/

def loopBreak {α : Type} (step : α → α) (brk : ℕ → α → α → Bool) :
    ℕ → ℕ → α → α
  | 0, _, a => a
  | fuel + 1, idx, a =>
    let a' := step a
    if brk idx a a' then a' else loopBreak step brk fuel (idx + 1) a'

/-- Number of `step` applications `loopBreak` performs from index `idx`:
one more than the first offset (below `fuel`) whose break condition fires
on the surrounding iterates, or `fuel` if none fires. -/
def loopBreakCount {α : Type} (step : α → α) (brk : ℕ → α → α → Bool)
    (fuel idx : ℕ) (a : α) : ℕ :=
  match (List.range fuel).find?
      (fun k => brk (idx + k) (step^[k] a) (step^[k + 1] a)) with
  | some k => k + 1
  | none => fuel

/-! ## The `scaling` solver (`solver_scaling` in `fugw/solvers/utils.py`)

Vectors are entry functions `ℕ → K` with the lengths (`n` source points,
`m` target points) carried in the context; `rho` is `Option K`, `none`
standing for `float("inf")` (the only non-finite value the code tests for,
via `torch.isinf`). -/

/-- `logsumexp` over `g 0, …, g (n-1)`, given the scalar kernels. -/
def logsumexp {K : Type} [LinearOrderedField K] (klog kexp : K → K)
    (n : ℕ) (g : ℕ → K) : K :=
  klog (∑ k ∈ Finset.range n, kexp (g k))

/-- `tau = 1 if torch.isinf(rho) else rho / (rho + eps)`. -/
def tauOf {K : Type} [LinearOrderedField K] (rho : Option K) (eps : K) : K :=
  match rho with
  | none => 1
  | some r => r / (r + eps)

/-- `v.abs().max()` over indices `0, …, n-1` (the entries are absolute
values, so the empty-range base `0` is neutral). -/
def vecAmax {K : Type} [LinearOrderedField K] (n : ℕ) (f : ℕ → K) : K :=
  (List.range n).foldl (fun a i => max a |f i|) 0

/-- Inputs of `solver_scaling`: `cost`, `tuple_pxy = (log_px, log_py, pxy)`,
`uot_params = (rho_x, rho_y, eps)` and `train_params`' `tol`/`eval_freq`. -/
structure ScalingCtx (K : Type) where
  klog : K → K
  kexp : K → K
  n : ℕ
  m : ℕ
  cost : ℕ → ℕ → K
  log_px : ℕ → K
  log_py : ℕ → K
  pxy : ℕ → ℕ → K
  rho_x : Option K
  rho_y : Option K
  eps : K
  tol : K
  eval_freq : ℕ

/-- One iteration of the `solver_scaling` loop body: `vy` from the previous
`vx`, then `vx` from the new `vy`; a dual whose `rho` is `0` is set to the
zero vector (`torch.zeros_like`). -/
def scalingStep {K : Type} [LinearOrderedField K] (c : ScalingCtx K)
    (v : (ℕ → K) × (ℕ → K)) : (ℕ → K) × (ℕ → K) :=
  let vy : ℕ → K :=
    if c.rho_y = some 0 then fun _ => 0
    else fun j => -tauOf c.rho_y c.eps *
      logsumexp c.klog c.kexp c.n fun k => v.1 k + c.log_px k - c.cost k j / c.eps
  let vx : ℕ → K :=
    if c.rho_x = some 0 then fun _ => 0
    else fun i => -tauOf c.rho_x c.eps *
      logsumexp c.klog c.kexp c.m fun j => vy j + c.log_py j - c.cost i j / c.eps
  (vx, vy)

/-- The `solver_scaling` stopping test, evaluated after the update at loop
index `idx`: a checkpoint every `eval_freq` iterations comparing the max
absolute change of both dual vectors against `tol`. -/
def scalingBrk {K : Type} [LinearOrderedField K] (c : ScalingCtx K)
    (idx : ℕ) (v v' : (ℕ → K) × (ℕ → K)) : Bool :=
  idx % c.eval_freq == 0 &&
    decide (max (vecAmax c.n fun i => v'.1 i - v.1 i)
      (vecAmax c.m fun j => v'.2 j - v.2 j) < c.tol)

/-- `solver_scaling(cost, init_duals, uot_params, tuple_pxy, train_params)`:
run the dual loop, then return the final duals and the coupling
`pxy * (vx[:, None] + vy[None, :] - cost / eps).exp()`. -/
def solver_scaling {K : Type} [LinearOrderedField K] (c : ScalingCtx K)
    (init_duals : (ℕ → K) × (ℕ → K)) (niters : ℕ) :
    ((ℕ → K) × (ℕ → K)) × (ℕ → ℕ → K) :=
  let v := loopBreak (scalingStep c) (scalingBrk c) niters 0 init_duals
  (v, fun i j => c.pxy i j * c.kexp (v.1 i + v.2 j - c.cost i j / c.eps))

/-- Concrete `scaling` context over `ℚ` used by the C5 witness. -/
def scalingWitCtx : ScalingCtx ℚ :=
  { klog := id, kexp := id, n := 1, m := 1, cost := fun _ _ => 0
    log_px := fun _ => 0, log_py := fun _ => 0, pxy := fun _ _ => 1
    rho_x := some 1, rho_y := some 1, eps := 1, tol := 1, eval_freq := 1 }

/-! ## The `mm` solver (`solver_mm` in `fugw/solvers/utils.py`)

`rho_x`, `rho_y` are plain field elements here: `solver_mm` performs no
`isinf` test (its docstring forbids infinite `rho`). -/

/-- Sum along `dim=1` (over the `m` target points). -/
def rowsum {K : Type} [LinearOrderedField K] (m : ℕ) (pi : ℕ → ℕ → K) :
    ℕ → K :=
  fun i => ∑ j ∈ Finset.range m, pi i j

/-- Sum along `dim=0` (over the `n` source points). -/
def colsum {K : Type} [LinearOrderedField K] (n : ℕ) (pi : ℕ → ℕ → K) :
    ℕ → K :=
  fun j => ∑ i ∈ Finset.range n, pi i j

/-- Inputs of `solver_mm`: `cost`, `tuple_pxy = (px, py)`,
`uot_params = (rho_x, rho_y, eps)` and `train_params`' `tol`/`eval_freq`. -/
structure MMCtx (K : Type) where
  kexp : K → K
  kpow : K → K → K
  n : ℕ
  m : ℕ
  cost : ℕ → ℕ → K
  px : ℕ → K
  py : ℕ → K
  rho_x : K
  rho_y : K
  eps : K
  tol : K
  eval_freq : ℕ

/-- The loop state of `solver_mm`: `pi` together with the maintained
marginals `pi1 = pi.sum(1)` and `pi2 = pi.sum(0)`. -/
structure MMState (K : Type) where
  pi : ℕ → ℕ → K
  pi1 : ℕ → K
  pi2 : ℕ → K

/-- The fixed kernel of `solver_mm`:
`K = px^(tau_x + r) ⊗ py^(tau_y + r) * exp(-cost / sum_param)`. -/
def mmKernel {K : Type} [LinearOrderedField K] (c : MMCtx K) : ℕ → ℕ → K :=
  let sum_param := c.rho_x + c.rho_y + c.eps
  let tau_x := c.rho_x / sum_param
  let tau_y := c.rho_y / sum_param
  let r := c.eps / sum_param
  fun i j => c.kpow (c.px i) (tau_x + r) * c.kpow (c.py j) (tau_y + r) *
    c.kexp (-c.cost i j / sum_param)

/-- One iteration of the `solver_mm` loop body:
`pi = pi^(tau_x+tau_y) / (pi1[:, None]^tau_x * pi2[None, :]^tau_y) * K`,
then refresh the stored marginals. -/
def mmStep {K : Type} [LinearOrderedField K] (c : MMCtx K)
    (st : MMState K) : MMState K :=
  let sum_param := c.rho_x + c.rho_y + c.eps
  let tau_x := c.rho_x / sum_param
  let tau_y := c.rho_y / sum_param
  let pi' : ℕ → ℕ → K := fun i j =>
    c.kpow (st.pi i j) (tau_x + tau_y) /
      (c.kpow (st.pi1 i) tau_x * c.kpow (st.pi2 j) tau_y) * mmKernel c i j
  { pi := pi', pi1 := rowsum c.m pi', pi2 := colsum c.n pi' }

/-- The `solver_mm` stopping test after the update at loop index `idx`:
every `eval_freq` iterations, the max absolute change of the row and column
mass vectors against `tol`. -/
def mmBrk {K : Type} [LinearOrderedField K] (c : MMCtx K)
    (idx : ℕ) (st st' : MMState K) : Bool :=
  idx % c.eval_freq == 0 &&
    decide (max (vecAmax c.n fun i => st'.pi1 i - st.pi1 i)
      (vecAmax c.m fun j => st'.pi2 j - st.pi2 j) < c.tol)

/-- The `mm` state whose marginals agree with its coupling. -/
def mmState0 {K : Type} [LinearOrderedField K] (c : MMCtx K)
    (pi : ℕ → ℕ → K) : MMState K :=
  { pi := pi, pi1 := rowsum c.m pi, pi2 := colsum c.n pi }

/-- `solver_mm(cost, init_pi, uot_params, tuple_pxy, train_params)`: run the
loop from `pi1, pi2, pi = init_pi.sum(1), init_pi.sum(0), init_pi` and
return the final coupling only (no dual vectors). -/
def solver_mm {K : Type} [LinearOrderedField K] (c : MMCtx K)
    (init_pi : ℕ → ℕ → K) (niters : ℕ) : ℕ → ℕ → K :=
  (loopBreak (mmStep c) (mmBrk c) niters 0 (mmState0 c init_pi)).pi

/-- The claim's view of one `mm` iteration: the coupling update written
with the row/column masses of the current coupling,
`π ← π^(τx+τy) / (π_row^τx ⊗ π_col^τy) * K`. -/
def mmUpdate {K : Type} [LinearOrderedField K] (c : MMCtx K)
    (pi : ℕ → ℕ → K) : ℕ → ℕ → K :=
  let sum_param := c.rho_x + c.rho_y + c.eps
  let tau_x := c.rho_x / sum_param
  let tau_y := c.rho_y / sum_param
  fun i j =>
    c.kpow (pi i j) (tau_x + tau_y) /
      (c.kpow (rowsum c.m pi i) tau_x * c.kpow (colsum c.n pi j) tau_y) *
      mmKernel c i j

/-- Concrete `mm` context over `ℚ` used by the C6 witness. -/
def mmWitCtx : MMCtx ℚ :=
  { kexp := id, kpow := fun x _ => x, n := 1, m := 1, cost := fun _ _ => 0
    px := fun _ => 1, py := fun _ => 1
    rho_x := 1, rho_y := 1, eps := 1, tol := 1, eval_freq := 1 }

/-! ## The `dc` solver (`solver_dc` in `fugw/solvers/utils.py`)

The `dc` solver's fatal-error pathway is about IEEE non-finite values, so
its tensors are embedded over `Flt K`.  `rho1`/`rho2` are `Option K` with
`none` for `float("inf")` (tested via `== float("inf")`); the remaining
scalar parameters are finite. -/

/-- Inputs of `solver_dc`: `cost`, `tuple_pxy = (px, py, pxy)`,
`uot_params = (rho1, rho2, eps)`, `eps_base` and `train_params`'
`tol`/`eval_freq`. -/
structure DCCtx (K : Type) where
  kexp : K → K
  kpow : K → K → K
  n : ℕ
  m : ℕ
  cost : ℕ → ℕ → Flt K
  px : ℕ → Flt K
  py : ℕ → Flt K
  pxy : ℕ → ℕ → Flt K
  rho1 : Option K
  rho2 : Option K
  eps : K
  eps_base : K
  tol : K
  eval_freq : ℕ

/-- The loop state of `solver_dc`: the scaling vectors `u`, `v`, the
coupling `pi`, and the row-mass vector `m1`, which is refreshed only at
evaluation checkpoints. -/
structure DCState (K : Type) where
  u : ℕ → Flt K
  v : ℕ → Flt K
  pi : ℕ → ℕ → Flt K
  m1 : ℕ → Flt K

/-- `K = torch.exp(-cost / sum_eps)` with `sum_eps = eps_base + eps`. -/
def dcKernel {K : Type} [LinearOrderedField K] (c : DCCtx K) : ℕ → ℕ → Flt K :=
  fun i j => Flt.fexp c.kexp (Flt.div (Flt.neg (c.cost i j)) (Flt.real (c.eps_base + c.eps)))

/-- The IPOT update of one `solver_dc` iteration (`G`, `v`, `u`, `pi`);
`m1` is left as it was (it is refreshed only at checkpoints). -/
def dcBody {K : Type} [LinearOrderedField K] (c : DCCtx K)
    (st : DCState K) : DCState K :=
  let sum_eps := c.eps_base + c.eps
  let tau1 := tauOf c.rho1 sum_eps
  let tau2 := tauOf c.rho2 sum_eps
  let G : ℕ → ℕ → Flt K := fun i j =>
    if c.eps_base / sum_eps = 1 then Flt.mul (dcKernel c i j) (st.pi i j)
    else Flt.mul (dcKernel c i j) (Flt.fpow c.kpow (st.pi i j) (c.eps_base / sum_eps))
  let v : ℕ → Flt K :=
    if c.rho2 ≠ some 0 then
      fun j => Flt.fpow c.kpow
        (Flt.rsum c.n fun k => Flt.mul (G k j) (Flt.mul (st.u k) (c.px k))) (-tau2)
    else fun _ => Flt.real 1
  let u : ℕ → Flt K :=
    if c.rho1 ≠ some 0 then
      fun i => Flt.fpow c.kpow
        (Flt.rsum c.m fun j => Flt.mul (G i j) (Flt.mul (v j) (c.py j))) (-tau1)
    else fun _ => Flt.real 1
  { u := u, v := v, pi := fun i j => Flt.mul (Flt.mul (u i) (G i j)) (v j)
    m1 := st.m1 }

/-- `m1.isnan().any() or m1.isinf().any()` over the `n` row masses. -/
def dcHasBad {K : Type} [LinearOrderedField K] (c : DCCtx K)
    (m1 : ℕ → Flt K) : Bool :=
  (List.range c.n).any fun i => (m1 i).isNan || (m1 i).isInf

/-- The fatal message raised by `solver_dc`. -/
def dcErrMsg : String := "There is NaN in coupling. Please increase eps_base."

/-- One iteration of `solver_dc` at loop index `idx`: the IPOT update, then
— at a checkpoint (`idx % eval_freq == 0`) — recompute `m1 = pi.sum(1)`,
raise if it has a NaN or infinite entry, otherwise break when the max
absolute change of the row mass is below `tol`.  The returned `Bool` is the
break flag. -/
def dcStep {K : Type} [LinearOrderedField K] (c : DCCtx K)
    (idx : ℕ) (st : DCState K) : Except String (DCState K × Bool) :=
  let st' := dcBody c st
  if idx % c.eval_freq == 0 then
    let m1 : ℕ → Flt K := fun i => Flt.rsum c.m (st'.pi i)
    if dcHasBad c m1 then Except.error dcErrMsg
    else Except.ok ({ st' with m1 := m1 },
      Flt.flt (Flt.rmax c.n fun i => (Flt.sub (m1 i) (st.m1 i)).abs)
        (Flt.real c.tol))
  else Except.ok (st', false)

/-- The `solver_dc` loop with `fuel` remaining iterations at index `idx`. -/
def dcLoop {K : Type} [LinearOrderedField K] (c : DCCtx K) :
    ℕ → ℕ → DCState K → Except String (DCState K)
  | 0, _, st => Except.ok st
  | fuel + 1, idx, st =>
    (dcStep c idx st).bind fun p =>
      if p.2 then Except.ok p.1 else dcLoop c fuel (idx + 1) p.1

/-- The state reached after `k` non-breaking, non-raising iterations
starting at loop index `idx`; `none` once the loop has raised or broken. -/
def dcTraceFrom {K : Type} [LinearOrderedField K] (c : DCCtx K)
    (idx : ℕ) (st : DCState K) : ℕ → Option (DCState K)
  | 0 => some st
  | k + 1 =>
    (dcTraceFrom c idx st k).bind fun s =>
      match dcStep c (idx + k) s with
      | Except.ok (s', false) => some s'
      | _ => none

/-- `solver_dc(cost, init_pi, init_duals, uot_params, tuple_pxy,
train_params, eps_base)`: run the loop from
`m1, pi = init_pi.sum(1), init_pi`, then rescale `pi = pi * pxy` and return
the duals and the coupling. -/
def solver_dc {K : Type} [LinearOrderedField K] (c : DCCtx K)
    (init_pi : ℕ → ℕ → Flt K) (init_duals : (ℕ → Flt K) × (ℕ → Flt K))
    (niters : ℕ) :
    Except String (((ℕ → Flt K) × (ℕ → Flt K)) × (ℕ → ℕ → Flt K)) :=
  (dcLoop c niters 0
      { u := init_duals.1, v := init_duals.2, pi := init_pi
        m1 := fun i => Flt.rsum c.m (init_pi i) }).map
    fun st => ((st.u, st.v), fun i j => Flt.mul (st.pi i j) (c.pxy i j))

/-- The row-mass vector recomputed from the body-updated coupling: what a
`solver_dc` checkpoint inspects for NaN/Inf. -/
def dcRowMass {K : Type} [LinearOrderedField K] (c : DCCtx K)
    (st : DCState K) : ℕ → Flt K :=
  fun i => Flt.rsum c.m ((dcBody c st).pi i)

/-- The initial `solver_dc` loop state. -/
def dcInit {K : Type} [LinearOrderedField K] (c : DCCtx K)
    (init_pi : ℕ → ℕ → Flt K) (init_duals : (ℕ → Flt K) × (ℕ → Flt K)) :
    DCState K :=
  { u := init_duals.1, v := init_duals.2, pi := init_pi
    m1 := fun i => Flt.rsum c.m (init_pi i) }

/-! ## The sparse barycenter fitter (`fugw/mappings/sparse_barycenter.py`)

Tensors are dimension-tagged entry functions.  An `FMat` carries `Flt`
entries (the float tensors of the code); a `KMat` carries exact field
entries and backs the spec-side formulas.  A sparse plan's
`torch.sparse.sum(pi, dim=0)` is the plain column sum of its dense view,
and `fine_mapping.pi.values()` — the stored sparse values the NaN check
scans — is modelled as all entries within the dimensions.  Device
placement, `_make_tensor` coercion and `verbose` logging are
representation-level and not modelled. -/

structure FMat (K : Type) where
  r : ℕ
  c : ℕ
  ent : ℕ → ℕ → Flt K

structure FVec (K : Type) where
  n : ℕ
  ent : ℕ → Flt K

structure KMat (K : Type) where
  r : ℕ
  c : ℕ
  ent : ℕ → ℕ → K

/-- Entrywise sum of same-shape matrices (`+=` on tensors). -/
def FMat.add {K : Type} [LinearOrderedField K] (a b : FMat K) : FMat K :=
  { r := a.r, c := a.c, ent := fun i j => Flt.add (a.ent i j) (b.ent i j) }

def KMat.add {K : Type} [LinearOrderedField K] (a b : KMat K) : KMat K :=
  { r := a.r, c := a.c, ent := fun i j => a.ent i j + b.ent i j }

/-- A `KMat` viewed as an exactly-represented float tensor. -/
def KMat.lift {K : Type} [LinearOrderedField K] (a : KMat K) : FMat K :=
  { r := a.r, c := a.c, ent := fun i j => Flt.real (a.ent i j) }

/-- `torch.isnan(mat.values()).any()`: a NaN among the entries within the
dimensions. -/
def FMat.hasNan {K : Type} [LinearOrderedField K] (a : FMat K) : Bool :=
  (List.range a.r).any fun i => (List.range a.c).any fun j => (a.ent i j).isNan

/-- The additive floor `1e-16` of `update_barycenter_features`. -/
def epsFloor (K : Type) [LinearOrderedField K] : K := 1 / 10 ^ 16

/-- One individual's accumuland `weight * pi.T @ f.T / pi_sum` with
`weight = 1 / N` and `pi_sum = torch.sparse.sum(pi, dim=0) + 1e-16`; entry
`(j, d)` is barycenter point `j`, feature dimension `d`. -/
def baryAcc {K : Type} [LinearOrderedField K] (N : ℕ) (pi f : FMat K) :
    FMat K :=
  { r := pi.c, c := f.r
    ent := fun j d =>
      Flt.div
        (Flt.rsum pi.r fun k =>
          Flt.mul (Flt.mul (Flt.real (1 / (N : K))) (pi.ent k j)) (f.ent d k))
        (Flt.add (Flt.rsum pi.r fun k => pi.ent k j) (Flt.real (epsFloor K))) }

/-- The pre-normalization aggregate `barycenter_features`: the
`if i == 0: acc else: += acc` accumulation over `zip(plans,
features_list)`.  On an empty zip the Python code would die on an unbound
variable; the embedding returns an all-NaN placeholder. -/
def baryAgg {K : Type} [LinearOrderedField K]
    (plans features_list : List (FMat K)) : FMat K :=
  match (plans.zip features_list).map
      (fun pf => baryAcc features_list.length pf.1 pf.2) with
  | [] => { r := 0, c := 0, ent := fun _ _ => Flt.nan }
  | a :: rest => rest.foldl FMat.add a

/-- `update_barycenter_features(plans, features_list, device)`: aggregate,
then min-max normalize each feature dimension (`dim=0` runs over the
barycenter points) to `[-1, 1]` and transpose. -/
def update_barycenter_features {K : Type} [LinearOrderedField K]
    (plans features_list : List (FMat K)) : FMat K :=
  let bf := baryAgg plans features_list
  let min_val : ℕ → Flt K := fun d => Flt.rmin bf.r fun j => bf.ent j d
  let max_val : ℕ → Flt K := fun d => Flt.rmax bf.r fun j => bf.ent j d
  { r := bf.c, c := bf.r
    ent := fun d j =>
      Flt.sub
        (Flt.div (Flt.mul (Flt.real 2) (Flt.sub (bf.ent j d) (min_val d)))
          (Flt.sub (max_val d) (min_val d)))
        (Flt.real 1) }

/-- A one-plan, one-point instance whose single barycenter dimension is
necessarily constant: input of the C4 counterexample. -/
def c4CexPlan : FMat ℚ := { r := 1, c := 1, ent := fun _ _ => Flt.real 2 }

def c4CexFeat : FMat ℚ := { r := 1, c := 1, ent := fun _ _ => Flt.real 5 }

/-- Inputs of the C10 witness (also a constant aggregate dimension). -/
def c10WitPlan : FMat ℚ := { r := 1, c := 1, ent := fun _ _ => Flt.real 1 }

def c10WitFeat : FMat ℚ := { r := 1, c := 1, ent := fun _ _ => Flt.real 0 }

/-- Inputs of the amended-C4 witness: one individual, one source point, two
barycenter points, one feature dimension. -/
def c4WitPlan : KMat ℚ := { r := 1, c := 2, ent := fun _ j => if j = 0 then 1 else 3 }

def c4WitFeat : KMat ℚ := { r := 1, c := 1, ent := fun _ _ => 1 }

/-! ### The fitting loop (`FUGWSparseBarycenter.fit` / `compute_all_ot_plans`)

The coarse-to-fine collaborator (`fugw.scripts.coarse_to_fine.fit`) and the
`FUGW`/`FUGWSparse` mapping classes are outside `src/`; the spec treats
them as external collaborators specified at their interface.  The
collaborator is therefore a *parameter*: an arbitrary total function from
the argument record the Fitter passes (`C2FCall`) to the observations the
Fitter reads back (`C2FRet`: the fitted fine mapping's `.pi`, `.loss`,
`.loss_steps`, `.loss_times`, and the returned sparsity mask, an opaque
value of type `M`).  Solver-parameter dicts, device placement and
verbosity are representation-level and omitted from the record. -/

/-- Constructor arguments of a `FUGW`/`FUGWSparse` mapping object. -/
structure MappingConfig (K : Type) where
  alpha : K
  rho : K
  eps : K
  reg_mode : String

/-- Constructor arguments of `FUGWSparseBarycenter`. -/
structure BaryCfg (K : Type) where
  alpha_coarse : K
  alpha_fine : K
  rho_coarse : K
  rho_fine : K
  eps_coarse : K
  eps_fine : K
  selection_radius : K
  reg_mode : String

/-- The arguments of one `coarse_to_fine.fit` call, as passed by
`compute_all_ot_plans` (the geometry embedding is used as both source and
target embedding, and `mesh_sample` as both samples). -/
structure C2FCall (K M : Type) where
  source_features : FMat K
  target_features : FMat K
  source_weights : FVec K
  target_weights : FVec K
  geometry_embedding : FMat K
  mesh_sample : Option (List ℕ)
  coarse_mapping : MappingConfig K
  fine_mapping : MappingConfig K
  solver : String
  selection_radius : K
  init_plan : Option (FMat K)
  sparsity_mask : Option M

/-- What the Fitter reads back from one collaborator call. -/
structure C2FRet (K M : Type) where
  pi : FMat K
  loss : List K
  loss_steps : List ℕ
  loss_times : List K
  mask : M

/-- A per-individual loss record `(loss, loss_steps, loss_times)`. -/
abbrev LossRec (K : Type) := List K × List ℕ × List K

/-- The `compute_all_ot_plans` loop over `zip(features_list, weights_list)`
starting at individual index `i` with the current sparsity mask.  Returns
the new plans, the per-individual loss records, the final mask, and — for
the verification only — the list of collaborator calls made.  The
collaborator's returned mask replaces the loop-shared `sparsity_mask`
variable, so it is passed (wrapped in `some`) to the *next* call, across
individuals and rounds alike; `plans[i]` is the warm-start plan.  Raises
when the fitted fine plan contains NaN values. -/
def computeAllAux {K M : Type} [LinearOrderedField K] (cfg : BaryCfg K)
    (c2f : C2FCall K M → C2FRet K M) (plans : Option (List (FMat K)))
    (geometry_embedding : FMat K) (barycenter_weights : FVec K)
    (barycenter_features : FMat K) (mesh_sample : Option (List ℕ))
    (solver : String) :
    List (FMat K × FVec K) → ℕ → Option M →
    Except String
      (List (FMat K) × List (LossRec K) × Option M × List (C2FCall K M))
  | [], _, mask => Except.ok ([], [], mask, [])
  | (features, weights) :: rest, i, mask =>
    let call : C2FCall K M :=
      { source_features := features
        target_features := barycenter_features
        source_weights := weights
        target_weights := barycenter_weights
        geometry_embedding := geometry_embedding
        mesh_sample := mesh_sample
        coarse_mapping :=
          { alpha := cfg.alpha_coarse, rho := cfg.rho_coarse
            eps := cfg.eps_coarse, reg_mode := cfg.reg_mode }
        fine_mapping :=
          { alpha := cfg.alpha_fine, rho := cfg.rho_fine
            eps := cfg.eps_fine, reg_mode := cfg.reg_mode }
        solver := solver
        selection_radius := cfg.selection_radius
        init_plan := plans.bind fun ps => ps[i]?
        sparsity_mask := mask }
    let ret := c2f call
    if FMat.hasNan ret.pi then Except.error "Fine plan contains NaN values"
    else
      (computeAllAux cfg c2f plans geometry_embedding barycenter_weights
          barycenter_features mesh_sample solver rest (i + 1)
          (some ret.mask)).map
        fun r => (ret.pi :: r.1, (ret.loss, ret.loss_steps, ret.loss_times) :: r.2.1,
          r.2.2.1, call :: r.2.2.2)

/-- `compute_all_ot_plans`: the loop from individual `0`, without the
verification-only call log. -/
def compute_all_ot_plans {K M : Type} [LinearOrderedField K] (cfg : BaryCfg K)
    (c2f : C2FCall K M → C2FRet K M) (plans : Option (List (FMat K)))
    (weights_list : List (FVec K)) (features_list : List (FMat K))
    (geometry_embedding : FMat K) (barycenter_weights : FVec K)
    (barycenter_features : FMat K) (mesh_sample : Option (List ℕ))
    (solver : String) (sparsity_mask : Option M) :
    Except String (List (FMat K) × List (LossRec K) × Option M) :=
  (computeAllAux cfg c2f plans geometry_embedding barycenter_weights
      barycenter_features mesh_sample solver
      (features_list.zip weights_list) 0 sparsity_mask).map
    fun r => (r.1, r.2.1, r.2.2.1)

/-- The `for idx in range(nits_barycenter)` loop of `fit`: each round
transports all individuals (warm-started from the previous round's plans
and mask) and replaces the barycenter features with
`update_barycenter_features`; the loss records of every round are
accumulated in order.  The call logs are carried for the verification. -/
def fitAux {K M : Type} [LinearOrderedField K] (cfg : BaryCfg K)
    (c2f : C2FCall K M → C2FRet K M) (weights_list : List (FVec K))
    (features_list : List (FMat K)) (geometry_embedding : FMat K)
    (barycenter_weights : FVec K) (mesh_sample : Option (List ℕ))
    (solver : String) :
    ℕ → Option (List (FMat K)) → Option M → FMat K →
    List (List (LossRec K)) → List (List (C2FCall K M)) →
    Except String
      (FMat K × Option (List (FMat K)) × List (List (LossRec K)) ×
        List (List (C2FCall K M)))
  | 0, plans, _, barycenter_features, losses, log =>
    Except.ok (barycenter_features, plans, losses, log)
  | nits + 1, plans, mask, barycenter_features, losses, log =>
    (computeAllAux cfg c2f plans geometry_embedding barycenter_weights
        barycenter_features mesh_sample solver
        (features_list.zip weights_list) 0 mask).bind
      fun r =>
        fitAux cfg c2f weights_list features_list geometry_embedding
          barycenter_weights mesh_sample solver nits (some r.1) r.2.2.1
          (update_barycenter_features r.1 features_list)
          (losses ++ [r.2.1]) (log ++ [r.2.2.2])

/-- `barycenter_size` resolution: the first individual's point count when
not supplied. -/
def fitBarycenterSize {K : Type} [LinearOrderedField K]
    (weights_list : List (FVec K)) (barycenter_size : Option ℕ) : ℕ :=
  match barycenter_size with
  | some b => b
  | none => (weights_list.headD { n := 0, ent := fun _ => Flt.nan }).n

/-- Barycenter weight initialization:
`torch.ones(barycenter_size) / barycenter_size` when none is supplied,
otherwise the user's vector. -/
def fitInitWeights {K : Type} [LinearOrderedField K]
    (weights_list : List (FVec K)) (barycenter_size : Option ℕ)
    (init_barycenter_weights : Option (FVec K)) : FVec K :=
  match init_barycenter_weights with
  | some w => w
  | none =>
    { n := fitBarycenterSize weights_list barycenter_size
      ent := fun _ =>
        Flt.div (Flt.real 1)
          (Flt.real ((fitBarycenterSize weights_list barycenter_size : ℕ) : K)) }

/-- Barycenter feature initialization: a ones matrix with each row divided
by its Euclidean norm (`sqrt` of the sum of its squared entries). -/
def fitInitFeatures {K : Type} [LinearOrderedField K] (ksqrt : K → K)
    (features_list : List (FMat K)) (bsize : ℕ)
    (init_barycenter_features : Option (FMat K)) : FMat K :=
  match init_barycenter_features with
  | some f => f
  | none =>
    { r := (features_list.headD { r := 0, c := 0, ent := fun _ _ => Flt.nan }).r
      c := bsize
      ent := fun _ _ =>
        Flt.div (Flt.real 1)
          (Flt.fsqrt ksqrt
            (Flt.rsum bsize fun _ => Flt.mul (Flt.real 1) (Flt.real 1))) }

/-- `FUGWSparseBarycenter.fit`: initialize the barycenter state, run the
rounds from `plans = None`, `sparsity_mask = None`, and return
`(barycenter_weights, barycenter_features, plans, losses_each_bar_step)`
(the call log is dropped; device resolution and the callback, which
returns nothing, are not modelled). -/
def fit {K M : Type} [LinearOrderedField K] (cfg : BaryCfg K)
    (c2f : C2FCall K M → C2FRet K M) (weights_list : List (FVec K))
    (features_list : List (FMat K)) (geometry_embedding : FMat K)
    (barycenter_size : Option ℕ) (init_barycenter_weights : Option (FVec K))
    (init_barycenter_features : Option (FMat K)) (solver : String)
    (mesh_sample : Option (List ℕ)) (nits_barycenter : ℕ) (ksqrt : K → K) :
    Except String
      (FVec K × FMat K × Option (List (FMat K)) × List (List (LossRec K))) :=
  let bweights := fitInitWeights weights_list barycenter_size
    init_barycenter_weights
  let bfeatures := fitInitFeatures ksqrt features_list
    (fitBarycenterSize weights_list barycenter_size) init_barycenter_features
  (fitAux cfg c2f weights_list features_list geometry_embedding bweights
      mesh_sample solver nits_barycenter none none bfeatures [] []).map
    fun r => (bweights, r.1, r.2.1, r.2.2.1)

/-! ### Concrete fitter instances over `ℚ` (counterexample and witnesses) -/

def witCfg : BaryCfg ℚ :=
  { alpha_coarse := 1, alpha_fine := 1, rho_coarse := 1, rho_fine := 1
    eps_coarse := 1, eps_fine := 1, selection_radius := 1, reg_mode := "joint" }

def witPi : FMat ℚ := { r := 1, c := 1, ent := fun _ _ => Flt.real 0 }

/-- A collaborator that always returns the same NaN-free plan and the mask
`7`. -/
def c1C2f : C2FCall ℚ ℕ → C2FRet ℚ ℕ :=
  fun _ => { pi := witPi, loss := [], loss_steps := [], loss_times := [], mask := 7 }

def witGeo : FMat ℚ := { r := 2, c := 2, ent := fun _ _ => Flt.real 0 }

def witBW : FVec ℚ := { n := 1, ent := fun _ => Flt.real 1 }

def witBF : FMat ℚ := { r := 1, c := 1, ent := fun _ _ => Flt.real 0 }

/-- A round-0 `compute_all_ot_plans` run with two individuals: no previous
plans and no previous sparsity mask, exactly as `fit` passes them on its
first round. -/
def c1Run : Except String
    (List (FMat ℚ) × List (LossRec ℚ) × Option ℕ × List (C2FCall ℚ ℕ)) :=
  computeAllAux witCfg c1C2f none witGeo witBW witBF none "mm"
    [(witBF, witBW), (witBF, witBW)] 0 none

def c1Res : List (FMat ℚ) × List (LossRec ℚ) × Option ℕ × List (C2FCall ℚ ℕ) :=
  c1Run.toOption.getD ([], [], none, [])

/-- Two individuals with differing point counts (1 and 2) and the same
feature dimensionality (1): inputs of the C8/C9 witnesses. -/
def fitWitWeights : List (FVec ℚ) :=
  [{ n := 1, ent := fun _ => Flt.real 1 }, { n := 2, ent := fun _ => Flt.real 1 }]

def fitWitFeats : List (FMat ℚ) :=
  [{ r := 1, c := 1, ent := fun _ _ => Flt.real 0 },
    { r := 1, c := 2, ent := fun _ _ => Flt.real 0 }]

def fitWitC2f : C2FCall ℚ ℕ → C2FRet ℚ ℕ :=
  fun _ => { pi := witPi, loss := [], loss_steps := [], loss_times := [], mask := 0 }

/-- A two-round `fit` run on the witness instance. -/
def fitWitRun : Except String
    (FVec ℚ × FMat ℚ × Option (List (FMat ℚ)) × List (List (LossRec ℚ))) :=
  fit witCfg fitWitC2f fitWitWeights fitWitFeats witGeo none none none "mm"
    none 2 id

def fitWitRes :
    FVec ℚ × FMat ℚ × Option (List (FMat ℚ)) × List (List (LossRec ℚ)) :=
  fitWitRun.toOption.getD
    ({ n := 0, ent := fun _ => Flt.nan }, { r := 0, c := 0, ent := fun _ _ => Flt.nan },
      none, [])

/-- Minimum of `g 0, …, g (n-1)` in the exact field, seeded at `g 0`. -/
def kminRange {K : Type} [LinearOrderedField K] (n : ℕ) (g : ℕ → K) : K :=
  (List.range n).foldl (fun a j => min a (g j)) (g 0)

/-- Maximum of `g 0, …, g (n-1)` in the exact field, seeded at `g 0`. -/
def kmaxRange {K : Type} [LinearOrderedField K] (n : ℕ) (g : ℕ → K) : K :=
  (List.range n).foldl (fun a j => max a (g j)) (g 0)

/-- Modelled from the spec: one individual's exact-arithmetic accumuland
`w_i · π_iᵗ · Fᵢᵗ / (colsum(π_i) + ε_floor)`, `w_i = 1/N`. -/
def specAcc {K : Type} [LinearOrderedField K] (N : ℕ) (pi f : KMat K) :
    KMat K :=
  { r := pi.c, c := f.r
    ent := fun j d =>
      (∑ k ∈ Finset.range pi.r, 1 / (N : K) * pi.ent k j * f.ent d k) /
        ((∑ k ∈ Finset.range pi.r, pi.ent k j) + epsFloor K) }

/-- Modelled from the spec: the summed exact-arithmetic aggregate. -/
def specAgg {K : Type} [LinearOrderedField K]
    (plans features_list : List (KMat K)) : KMat K :=
  match (plans.zip features_list).map
      (fun pf => specAcc features_list.length pf.1 pf.2) with
  | [] => { r := 0, c := 0, ent := fun _ _ => 0 }
  | a :: rest => rest.foldl KMat.add a

/-- Modelled from the spec: min-max rescaling of each feature dimension to
`[-1, 1]` over the barycenter points, transposed. -/
def specUpdate {K : Type} [LinearOrderedField K]
    (plans features_list : List (KMat K)) : KMat K :=
  let bf := specAgg plans features_list
  { r := bf.c, c := bf.r
    ent := fun d j =>
      2 * (bf.ent j d - kminRange bf.r fun i => bf.ent i d) /
        ((kmaxRange bf.r fun i => bf.ent i d) -
          (kminRange bf.r fun i => bf.ent i d)) - 1 }

/-- Pointwise bound: for `0 ≤ x` and `0 < y`,
`klTerm x y - x + y ≥ 0`, with equality iff `x = y`. -/
lemma klTerm_sub_add_nonneg (x y : ℝ) (hx : 0 ≤ x) (hy : 0 < y) :
    0 ≤ klTerm Real.log x y - x + y ∧ (klTerm Real.log x y - x + y = 0 ↔ x = y) := by
  rcases eq_or_lt_of_le hx with h0 | hxpos
  · have hterm : klTerm Real.log x y = 0 := by
      unfold klTerm
      rw [if_neg]
      rintro (⟨h1, _⟩ | ⟨h1, _⟩) <;> simp [← h0] at h1
    constructor
    · rw [hterm, ← h0]; linarith
    · rw [hterm, ← h0]
      constructor
      · intro h; linarith
      · intro h; linarith
  · have hterm : klTerm Real.log x y = x * Real.log (x / y) := by
      unfold klTerm
      rw [if_pos (Or.inl ⟨hxpos, hy⟩)]
    have hratio : 0 < y / x := div_pos hy hxpos
    have hlog : Real.log (x / y) = -Real.log (y / x) := by
      rw [← Real.log_inv]
      congr 1
      field_simp
    have hbound : Real.log (y / x) ≤ y / x - 1 := Real.log_le_sub_one_of_pos hratio
    constructor
    · rw [hterm, hlog]
      have : x * Real.log (y / x) ≤ x * (y / x - 1) :=
        mul_le_mul_of_nonneg_left hbound (le_of_lt hxpos)
      have hxy : x * (y / x - 1) = y - x := by field_simp
      nlinarith
    · constructor
      · intro heq
        by_contra hne
        have hne' : y / x ≠ 1 := by
          intro h1
          apply hne
          field_simp at h1
          linarith
        have hstrict : Real.log (y / x) < y / x - 1 :=
          Real.log_lt_sub_one_of_pos hratio hne'
        have : x * Real.log (y / x) < x * (y / x - 1) :=
          mul_lt_mul_of_pos_left hstrict hxpos
        have hxy : x * (y / x - 1) = y - x := by field_simp
        rw [hterm, hlog] at heq
        nlinarith
      · intro heq
        subst heq
        rw [hterm, div_self (ne_of_gt hxpos), Real.log_one]
        ring

/-- `compute_kl` as a single sum of pointwise nonnegative contributions. -/
lemma compute_kl_eq_sum (klog : ℝ → ℝ) {n : ℕ} (p q : Fin n → ℝ) :
    compute_kl klog p q = ∑ i, (klTerm klog (p i) (q i) - p i + q i) := by
  unfold compute_kl compute_approx_kl
  rw [Finset.sum_add_distrib, Finset.sum_sub_distrib]

/-- C2 as stated fails: `compute_kl` zeroes the `+∞` term arising at
`p i = 1 > 0 = q i`, so the result is `-1 < 0` for nonnegative finite
inputs. -/
theorem compute_kl_neg_at_zero_target :
    compute_kl Real.log ![(1 : ℝ)] ![(0 : ℝ)] = -1 := by
  unfold compute_kl compute_approx_kl klTerm
  simp

/-- C2 (amended): for nonnegative `p` and entrywise **positive** `q`,
`compute_kl(p, q) ≥ 0` with equality iff `p = q`; and `compute_kl(p, p) = 0`
exactly, for every `p`.  (As stated, the claim fails when some `q i = 0 < p i`:
the `+∞` term is zeroed by `nan_to_num`, which can make the result
negative.) -/
theorem compute_kl_nonneg_iff {n : ℕ} (p q : Fin n → ℝ)
    (hp : ∀ i, 0 ≤ p i) (hq : ∀ i, 0 < q i) :
    0 ≤ compute_kl Real.log p q ∧ (compute_kl Real.log p q = 0 ↔ p = q) ∧
      compute_kl Real.log p p = 0 := by
  have hpt : ∀ i : Fin n, 0 ≤ klTerm Real.log (p i) (q i) - p i + q i :=
    fun i => (klTerm_sub_add_nonneg (p i) (q i) (hp i) (hq i)).1
  have hself : compute_kl Real.log p p = 0 := by
    rw [compute_kl_eq_sum]
    apply Finset.sum_eq_zero
    intro i _
    unfold klTerm
    rcases lt_trichotomy (p i) 0 with h | h | h
    · rw [if_pos (Or.inr ⟨h, h⟩), div_self (ne_of_lt h), Real.log_one]; ring
    · rw [if_neg]
      · rw [h]; ring
      · rintro (⟨h1, _⟩ | ⟨h1, _⟩) <;> simp [h] at h1
    · rw [if_pos (Or.inl ⟨h, h⟩), div_self (ne_of_gt h), Real.log_one]; ring
  refine ⟨?_, ⟨?_, ?_⟩, hself⟩
  · rw [compute_kl_eq_sum]
    exact Finset.sum_nonneg fun i _ => hpt i
  · intro h
    rw [compute_kl_eq_sum] at h
    have hall := (Finset.sum_eq_zero_iff_of_nonneg (fun i _ => hpt i)).mp h
    funext i
    exact ((klTerm_sub_add_nonneg (p i) (q i) (hp i) (hq i)).2).mp
      (hall i (Finset.mem_univ i))
  · intro h
    subst h
    exact hself

/-- Witness for the amended C2 at `p = ![2]`, `q = ![1]`. -/
theorem compute_kl_nonneg_iff_witness :
    0 ≤ compute_kl Real.log ![(2 : ℝ)] ![(1 : ℝ)] ∧
      (compute_kl Real.log ![(2 : ℝ)] ![(1 : ℝ)] = 0 ↔ ![(2 : ℝ)] = ![(1 : ℝ)]) ∧
      compute_kl Real.log ![(2 : ℝ)] ![(2 : ℝ)] = 0 :=
  compute_kl_nonneg_iff ![(2 : ℝ)] ![(1 : ℝ)]
    (fun i => by fin_cases i; norm_num)
    (fun i => by fin_cases i; norm_num)

/-- Coercion of a real `Finset` sum into `EReal`, termwise. -/
lemma ereal_coe_sum {n : ℕ} (f : Fin n → ℝ) :
    ((∑ i, f i : ℝ) : EReal) = ∑ i, ((f i : ℝ) : EReal) := by
  induction (Finset.univ : Finset (Fin n)) using Finset.induction_on with
  | empty => simp
  | insert h ih => simp_all [Finset.sum_insert h]

/-- C7 as stated fails: at `p = ![2]`, `q = ![0]` the code returns the finite
value `-2`, but the spec's formula — which only grants the `0·log0 = 0` and
`0/0 ↦ 0` conventions — has the non-finite term `2·log(2/0) = +∞`, so the
value the claim prescribes is `⊤`, not finite and not the code's value. -/
theorem compute_kl_ne_spec_at_zero_target :
    compute_kl Real.log ![(2 : ℝ)] ![(0 : ℝ)] = -2 ∧
      generalizedKLSpec ![(2 : ℝ)] ![(0 : ℝ)] = ⊤ := by
  constructor
  · unfold compute_kl compute_approx_kl klTerm
    simp
  · unfold generalizedKLSpec klTermSpec
    rw [Fin.sum_univ_one]
    norm_num

/-- C7 (amended): when no positive `p i` sits on a zero `q i` (so every
non-finite elementwise term really does arise from `0·log0` or a `0/0`
ratio), `compute_kl` returns exactly the spec's formula
`Σ p·log(p/q) − Σp + Σq`; the returned value is a (finite) real number by
construction.  (In general the code zeroes *every* non-finite term, also the
`+∞` at `p i > 0 = q i`, which the claim's conventions do not license.) -/
theorem compute_kl_eq_spec_of_support {n : ℕ} (p q : Fin n → ℝ)
    (hp : ∀ i, 0 ≤ p i) (hq : ∀ i, 0 ≤ q i) (hsupp : ∀ i, q i = 0 → p i = 0) :
    ((compute_kl Real.log p q : ℝ) : EReal) = generalizedKLSpec p q := by
  have hterm : ∀ i : Fin n,
      ((klTerm Real.log (p i) (q i) : ℝ) : EReal) = klTermSpec (p i) (q i) := by
    intro i
    rcases eq_or_lt_of_le (hp i) with h0 | hpos
    · unfold klTerm klTermSpec
      rw [if_neg, if_pos h0.symm]
      · norm_num
      · rintro (⟨h1, _⟩ | ⟨h1, _⟩) <;> simp [← h0] at h1
    · have hq0 : q i ≠ 0 := fun h => ne_of_gt hpos (hsupp i h)
      have hqpos : 0 < q i := lt_of_le_of_ne (hq i) (Ne.symm hq0)
      unfold klTerm klTermSpec
      rw [if_pos (Or.inl ⟨hpos, hqpos⟩), if_neg (ne_of_gt hpos), if_neg hq0]
  unfold compute_kl generalizedKLSpec
  rw [EReal.coe_add, EReal.coe_sub]
  unfold compute_approx_kl
  rw [ereal_coe_sum]
  congr 1
  congr 1
  exact Finset.sum_congr rfl fun i _ => hterm i

lemma find?_range_succ (p : ℕ → Bool) (f : ℕ) :
    (List.range (f + 1)).find? p =
      if p 0 then some 0
      else ((List.range f).find? fun k => p (k + 1)).map (· + 1) := by
  rw [List.range_succ_eq_map, List.find?_cons, List.find?_map]
  cases hp : p 0
  · rfl
  · rfl

lemma loopBreakCount_succ_pos {α : Type} (step : α → α) (brk : ℕ → α → α → Bool)
    (f idx : ℕ) (a : α) (h : brk idx a (step a) = true) :
    loopBreakCount step brk (f + 1) idx a = 1 := by
  unfold loopBreakCount
  rw [find?_range_succ, if_pos (by simpa using h)]

lemma loopBreakCount_succ_neg {α : Type} (step : α → α) (brk : ℕ → α → α → Bool)
    (f idx : ℕ) (a : α) (h : brk idx a (step a) = false) :
    loopBreakCount step brk (f + 1) idx a =
      loopBreakCount step brk f (idx + 1) (step a) + 1 := by
  unfold loopBreakCount
  rw [find?_range_succ, if_neg (by simpa using h)]
  have hfun : (fun k => brk (idx + (k + 1)) (step^[k + 1] a) (step^[k + 1 + 1] a))
      = fun k => brk (idx + 1 + k) (step^[k] (step a)) (step^[k + 1] (step a)) := by
    funext k
    rw [Function.iterate_succ_apply, Function.iterate_succ_apply (n := k + 1),
      show idx + (k + 1) = idx + 1 + k by omega]
  rw [hfun]
  rcases (List.range f).find? fun k => brk (idx + 1 + k) (step^[k] (step a)) (step^[k + 1] (step a)) with _ | k
  · rfl
  · rfl

lemma loopBreak_eq_iterate {α : Type} (step : α → α) (brk : ℕ → α → α → Bool) :
    ∀ (fuel idx : ℕ) (a : α),
      loopBreak step brk fuel idx a =
        step^[loopBreakCount step brk fuel idx a] a := by
  intro fuel
  induction fuel with
  | zero => intro idx a; simp [loopBreak, loopBreakCount]
  | succ f ih =>
    intro idx a
    unfold loopBreak
    by_cases h : brk idx a (step a)
    · rw [if_pos h, loopBreakCount_succ_pos step brk f idx a h]
      simp
    · rw [if_neg h, ih (idx + 1) (step a),
        loopBreakCount_succ_neg step brk f idx a (by simpa using h),
        Function.iterate_succ_apply]

lemma loopBreakCount_le {α : Type} (step : α → α) (brk : ℕ → α → α → Bool)
    (fuel idx : ℕ) (a : α) : loopBreakCount step brk fuel idx a ≤ fuel := by
  unfold loopBreakCount
  rcases hf : (List.range fuel).find?
      (fun k => brk (idx + k) (step^[k] a) (step^[k + 1] a)) with _ | k
  · exact le_refl _
  · have hmem : k ∈ List.range fuel := List.mem_of_find?_eq_some hf
    rw [List.mem_range] at hmem
    show k + 1 ≤ fuel
    omega

/-- Witness for the amended C7 at `p = ![1, 0]`, `q = ![2, 3]`. -/
theorem compute_kl_eq_spec_of_support_witness :
    ((compute_kl Real.log ![(1 : ℝ), 0] ![(2 : ℝ), 3] : ℝ) : EReal) =
      generalizedKLSpec ![(1 : ℝ), 0] ![(2 : ℝ), 3] :=
  compute_kl_eq_spec_of_support ![(1 : ℝ), 0] ![(2 : ℝ), 3]
    (fun i => by fin_cases i <;> norm_num)
    (fun i => by fin_cases i <;> norm_num)
    (fun i => by fin_cases i <;> norm_num)

/-- C5: for a `scaling` call with `ε > 0`, (i) each iteration updates the
duals by `v_y ← −τ_y · logsumexp` over the source dimension of
`(v_x + log p_x) − C/ε` and then `v_x ← −τ_x · logsumexp` over the target
dimension of `(v_y + log p_y) − C/ε` with `τ = ρ/(ρ+ε)`, `τ = 1` for
infinite `ρ` (both folded into `tauOf`), and the dual held at `0` when
`ρ = 0`; (ii) the returned duals are some number `t ≤ niters` of these
alternating updates applied to the initial duals; (iii) the returned
coupling is `p_x ⊗ p_y · exp(v_x ⊕ v_y − C/ε)` at the final duals. -/
theorem solver_scaling_c5 {K : Type} [LinearOrderedField K]
    (c : ScalingCtx K) (init : (ℕ → K) × (ℕ → K))
    (niters : ℕ) (px py : ℕ → K) (_heps : 0 < c.eps)
    (hpxy : ∀ i j, c.pxy i j = px i * py j) :
    (∀ v j, (scalingStep c v).2 j =
      (if c.rho_y = some 0 then 0 else -tauOf c.rho_y c.eps *
        logsumexp c.klog c.kexp c.n fun k => v.1 k + c.log_px k - c.cost k j / c.eps)) ∧
    (∀ v i, (scalingStep c v).1 i =
      (if c.rho_x = some 0 then 0 else -tauOf c.rho_x c.eps *
        logsumexp c.klog c.kexp c.m fun j =>
          (scalingStep c v).2 j + c.log_py j - c.cost i j / c.eps)) ∧
    (∃ t ≤ niters, (solver_scaling c init niters).1 = (scalingStep c)^[t] init) ∧
    (∀ i j, (solver_scaling c init niters).2 i j =
      px i * py j * c.kexp ((solver_scaling c init niters).1.1 i +
        (solver_scaling c init niters).1.2 j - c.cost i j / c.eps)) := by
  refine ⟨?_, ?_, ?_, ?_⟩
  · intro v j
    by_cases h : c.rho_y = some 0 <;> simp [scalingStep, h]
  · intro v i
    by_cases hx : c.rho_x = some 0 <;> by_cases hy : c.rho_y = some 0 <;>
      simp [scalingStep, hx, hy]
  · exact ⟨loopBreakCount (scalingStep c) (scalingBrk c) niters 0 init,
      loopBreakCount_le _ _ _ _ _,
      loopBreak_eq_iterate (scalingStep c) (scalingBrk c) niters 0 init⟩
  · intro i j
    show c.pxy i j * _ = _
    rw [hpxy i j]
    rfl

/-- Witness for C5: the concrete `ℚ` context `scalingWitCtx`, uniform unit
marginals and zero initial duals. -/
theorem solver_scaling_c5_witness :
    (∀ v j, (scalingStep scalingWitCtx v).2 j =
      (if scalingWitCtx.rho_y = some 0 then 0 else
        -tauOf scalingWitCtx.rho_y scalingWitCtx.eps *
        logsumexp scalingWitCtx.klog scalingWitCtx.kexp scalingWitCtx.n fun k =>
          v.1 k + scalingWitCtx.log_px k - scalingWitCtx.cost k j / scalingWitCtx.eps)) ∧
    (∀ v i, (scalingStep scalingWitCtx v).1 i =
      (if scalingWitCtx.rho_x = some 0 then 0 else
        -tauOf scalingWitCtx.rho_x scalingWitCtx.eps *
        logsumexp scalingWitCtx.klog scalingWitCtx.kexp scalingWitCtx.m fun j =>
          (scalingStep scalingWitCtx v).2 j + scalingWitCtx.log_py j -
            scalingWitCtx.cost i j / scalingWitCtx.eps)) ∧
    (∃ t ≤ 3, (solver_scaling scalingWitCtx (fun _ => 0, fun _ => 0) 3).1 =
      (scalingStep scalingWitCtx)^[t] (fun _ => 0, fun _ => 0)) ∧
    (∀ i j, (solver_scaling scalingWitCtx (fun _ => 0, fun _ => 0) 3).2 i j =
      1 * 1 * scalingWitCtx.kexp
        ((solver_scaling scalingWitCtx (fun _ => 0, fun _ => 0) 3).1.1 i +
          (solver_scaling scalingWitCtx (fun _ => 0, fun _ => 0) 3).1.2 j -
          scalingWitCtx.cost i j / scalingWitCtx.eps)) :=
  solver_scaling_c5 scalingWitCtx (fun _ => 0, fun _ => 0) 3
    (fun _ => 1) (fun _ => 1) (by norm_num [scalingWitCtx])
    (fun i j => by norm_num [scalingWitCtx])

/-- The `mm` loop body keeps the stored marginals in sync with the
coupling: on a synchronized state it is exactly the claim's coupling
update. -/
lemma mmStep_state0 {K : Type} [LinearOrderedField K] (c : MMCtx K)
    (pi : ℕ → ℕ → K) : mmStep c (mmState0 c pi) = mmState0 c (mmUpdate c pi) :=
  rfl

lemma mmStep_iterate_state0 {K : Type} [LinearOrderedField K] (c : MMCtx K) :
    ∀ (t : ℕ) (pi : ℕ → ℕ → K),
      (mmStep c)^[t] (mmState0 c pi) = mmState0 c ((mmUpdate c)^[t] pi) := by
  intro t
  induction t with
  | zero => intro pi; rfl
  | succ t ih =>
    intro pi
    rw [Function.iterate_succ_apply, Function.iterate_succ_apply,
      mmStep_state0, ih]

/-- C6: for an `mm` call with finite nonzero `ρ_x, ρ_y` and `ε ≥ 0`,
(i) the fixed kernel is `px^(τx+r) ⊗ py^(τy+r) · exp(−C/S)` with
`S = ρx+ρy+ε`, `τx = ρx/S`, `τy = ρy/S`, `r = ε/S`; (ii) each iteration
maps `π` to `π^(τx+τy) / (π_row^τx ⊗ π_col^τy) · K`; (iii) the returned
coupling — and nothing else: `solver_mm` returns no dual vectors — is some
number `t ≤ niters` of these updates applied to the initial coupling;
(iv) the loop breaks exactly at an index that is a multiple of `eval_freq`
at which the max absolute change of the row and column mass vectors is
below `tol`. -/
theorem solver_mm_c6 {K : Type} [LinearOrderedField K] (c : MMCtx K)
    (init_pi : ℕ → ℕ → K) (niters : ℕ)
    (_hx : c.rho_x ≠ 0) (_hy : c.rho_y ≠ 0) (_he : 0 ≤ c.eps) :
    (∀ i j, mmKernel c i j =
      c.kpow (c.px i)
          (c.rho_x / (c.rho_x + c.rho_y + c.eps) + c.eps / (c.rho_x + c.rho_y + c.eps)) *
        c.kpow (c.py j)
          (c.rho_y / (c.rho_x + c.rho_y + c.eps) + c.eps / (c.rho_x + c.rho_y + c.eps)) *
        c.kexp (-c.cost i j / (c.rho_x + c.rho_y + c.eps))) ∧
    (∀ pi i j, mmUpdate c pi i j =
      c.kpow (pi i j)
          (c.rho_x / (c.rho_x + c.rho_y + c.eps) + c.rho_y / (c.rho_x + c.rho_y + c.eps)) /
        (c.kpow (rowsum c.m pi i) (c.rho_x / (c.rho_x + c.rho_y + c.eps)) *
          c.kpow (colsum c.n pi j) (c.rho_y / (c.rho_x + c.rho_y + c.eps))) *
        mmKernel c i j) ∧
    (∃ t ≤ niters, solver_mm c init_pi niters = (mmUpdate c)^[t] init_pi) ∧
    (∀ idx st st', mmBrk c idx st st' = true ↔
      (idx % c.eval_freq = 0 ∧
        max (vecAmax c.n fun i => st'.pi1 i - st.pi1 i)
          (vecAmax c.m fun j => st'.pi2 j - st.pi2 j) < c.tol)) := by
  refine ⟨fun i j => rfl, fun pi i j => rfl, ?_, ?_⟩
  · refine ⟨loopBreakCount (mmStep c) (mmBrk c) niters 0 (mmState0 c init_pi),
      loopBreakCount_le _ _ _ _ _, ?_⟩
    show (loopBreak (mmStep c) (mmBrk c) niters 0 (mmState0 c init_pi)).pi = _
    rw [loopBreak_eq_iterate, mmStep_iterate_state0]
    rfl
  · intro idx st st'
    simp [mmBrk]

/-- Witness for C6: the concrete `ℚ` context `mmWitCtx`, all-ones initial
coupling, two iterations. -/
theorem solver_mm_c6_witness :
    (∀ i j, mmKernel mmWitCtx i j =
      mmWitCtx.kpow (mmWitCtx.px i)
          (mmWitCtx.rho_x / (mmWitCtx.rho_x + mmWitCtx.rho_y + mmWitCtx.eps) +
            mmWitCtx.eps / (mmWitCtx.rho_x + mmWitCtx.rho_y + mmWitCtx.eps)) *
        mmWitCtx.kpow (mmWitCtx.py j)
          (mmWitCtx.rho_y / (mmWitCtx.rho_x + mmWitCtx.rho_y + mmWitCtx.eps) +
            mmWitCtx.eps / (mmWitCtx.rho_x + mmWitCtx.rho_y + mmWitCtx.eps)) *
        mmWitCtx.kexp
          (-mmWitCtx.cost i j / (mmWitCtx.rho_x + mmWitCtx.rho_y + mmWitCtx.eps))) ∧
    (∀ pi i j, mmUpdate mmWitCtx pi i j =
      mmWitCtx.kpow (pi i j)
          (mmWitCtx.rho_x / (mmWitCtx.rho_x + mmWitCtx.rho_y + mmWitCtx.eps) +
            mmWitCtx.rho_y / (mmWitCtx.rho_x + mmWitCtx.rho_y + mmWitCtx.eps)) /
        (mmWitCtx.kpow (rowsum mmWitCtx.m pi i)
            (mmWitCtx.rho_x / (mmWitCtx.rho_x + mmWitCtx.rho_y + mmWitCtx.eps)) *
          mmWitCtx.kpow (colsum mmWitCtx.n pi j)
            (mmWitCtx.rho_y / (mmWitCtx.rho_x + mmWitCtx.rho_y + mmWitCtx.eps))) *
        mmKernel mmWitCtx i j) ∧
    (∃ t ≤ 2, solver_mm mmWitCtx (fun _ _ => 1) 2 =
      (mmUpdate mmWitCtx)^[t] (fun _ _ => 1)) ∧
    (∀ idx st st', mmBrk mmWitCtx idx st st' = true ↔
      (idx % mmWitCtx.eval_freq = 0 ∧
        max (vecAmax mmWitCtx.n fun i => st'.pi1 i - st.pi1 i)
          (vecAmax mmWitCtx.m fun j => st'.pi2 j - st.pi2 j) < mmWitCtx.tol)) :=
  solver_mm_c6 mmWitCtx (fun _ _ => 1) 2 (by norm_num [mmWitCtx])
    (by norm_num [mmWitCtx]) (by norm_num [mmWitCtx])

lemma dcTraceFrom_shift {K : Type} [LinearOrderedField K] (c : DCCtx K)
    (i : ℕ) (st st' : DCState K)
    (h : dcStep c i st = Except.ok (st', false)) :
    ∀ k, dcTraceFrom c i st (k + 1) = dcTraceFrom c (i + 1) st' k := by
  intro k
  induction k with
  | zero => simp [dcTraceFrom, h]
  | succ k ih =>
    show (dcTraceFrom c i st (k + 1)).bind _ = (dcTraceFrom c (i + 1) st' k).bind _
    rw [ih]
    congr 1
    funext s
    rw [show i + (k + 1) = i + 1 + k by omega]

lemma dcTraceFrom_none_mono {K : Type} [LinearOrderedField K] (c : DCCtx K)
    (i : ℕ) (st : DCState K) (k : ℕ) (h : dcTraceFrom c i st k = none) :
    ∀ j, k ≤ j → dcTraceFrom c i st j = none := by
  intro j
  induction j with
  | zero =>
    intro hj
    rw [Nat.le_zero] at hj
    rw [← hj]
    exact h
  | succ j ih =>
    intro hj
    rcases Nat.lt_or_ge k (j + 1) with hlt | hge
    · have : dcTraceFrom c i st j = none := by
        rcases Nat.lt_or_ge k j with h1 | h1
        · exact ih (Nat.le_of_lt h1)
        · have : k = j := by omega
          rw [← this]; exact h
      show (dcTraceFrom c i st j).bind _ = none
      rw [this]
      rfl
    · have : k = j + 1 := by omega
      rw [← this]; exact h

lemma dcLoop_error_iff {K : Type} [LinearOrderedField K] (c : DCCtx K) :
    ∀ (fuel i : ℕ) (st : DCState K),
      (∃ msg, dcLoop c fuel i st = Except.error msg) ↔
        ∃ k, k < fuel ∧ ∃ s, dcTraceFrom c i st k = some s ∧
          ∃ msg, dcStep c (i + k) s = Except.error msg := by
  intro fuel
  induction fuel with
  | zero =>
    intro i st
    constructor
    · rintro ⟨msg, h⟩
      exact absurd h (by simp [dcLoop])
    · rintro ⟨k, hk, _⟩
      omega
  | succ f ih =>
    intro i st
    rcases hstep : dcStep c i st with msg | p
    · constructor
      · intro _
        exact ⟨0, by omega, st, rfl, msg, by simpa using hstep⟩
      · intro _
        refine ⟨msg, ?_⟩
        show (dcStep c i st).bind _ = Except.error msg
        rw [hstep]
        rfl
    · rcases p with ⟨st', brk⟩
      have hloop : dcLoop c (f + 1) i st =
          if brk then Except.ok st' else dcLoop c f (i + 1) st' := by
        show (dcStep c i st).bind _ = _
        rw [hstep]
        rfl
      have htr1 : ¬ brk = true → ∀ k, dcTraceFrom c i st (k + 1) = dcTraceFrom c (i + 1) st' k := by
        intro hb
        have : brk = false := by
          cases brk
          · rfl
          · exact absurd rfl hb
        exact dcTraceFrom_shift c i st st' (by rw [← this]; exact hstep)
      cases brk with
      | true =>
        rw [hloop, if_pos rfl]
        constructor
        · rintro ⟨msg, h⟩
          exact absurd h (by simp)
        · rintro ⟨k, hk, s, htr, msg, herr⟩
          rcases k with _ | k
          · have hs : st = s := by simpa [dcTraceFrom] using htr
            rw [← hs, Nat.add_zero, hstep] at herr
            exact absurd herr (by simp)
          · have h1 : dcTraceFrom c i st 1 = none := by
              simp [dcTraceFrom, hstep]
            have := dcTraceFrom_none_mono c i st 1 h1 (k + 1) (by omega)
            rw [this] at htr
            exact absurd htr (by simp)
      | false =>
        rw [hloop, if_neg (by simp)]
        rw [ih (i + 1) st']
        constructor
        · rintro ⟨k, hk, s, htr, msg, herr⟩
          refine ⟨k + 1, by omega, s, ?_, msg, ?_⟩
          · rw [htr1 (by simp) k]
            exact htr
          · rw [show i + (k + 1) = i + 1 + k by omega]
            exact herr
        · rintro ⟨k, hk, s, htr, msg, herr⟩
          rcases k with _ | k
          · have hs : st = s := by simpa [dcTraceFrom] using htr
            rw [← hs, Nat.add_zero, hstep] at herr
            exact absurd herr (by simp)
          · refine ⟨k, by omega, s, ?_, msg, ?_⟩
            · rw [← htr1 (by simp) k]
              exact htr
            · rw [show i + 1 + k = i + (k + 1) by omega]
              exact herr

/-- One-step characterization of `dcStep`: off checkpoints only the IPOT
update happens; at a checkpoint it raises exactly on a NaN/Inf row mass,
and otherwise breaks exactly when the row mass moved less than `tol`. -/
lemma dcStep_eq {K : Type} [LinearOrderedField K] (c : DCCtx K)
    (idx : ℕ) (st : DCState K) :
    dcStep c idx st =
      if idx % c.eval_freq = 0 then
        (if dcHasBad c (dcRowMass c st) = true then Except.error dcErrMsg
          else Except.ok ({ dcBody c st with m1 := dcRowMass c st },
            Flt.flt (Flt.rmax c.n fun i => (Flt.sub (dcRowMass c st i) (st.m1 i)).abs)
              (Flt.real c.tol)))
      else Except.ok (dcBody c st, false) := by
  have hrm : dcRowMass c st = fun i => Flt.rsum c.m ((dcBody c st).pi i) := rfl
  by_cases h : idx % c.eval_freq = 0 <;>
    by_cases hbad : dcHasBad c (dcRowMass c st) = true <;>
    rw [hrm] at hbad <;>
    simp [dcStep, hrm, h, hbad]

lemma dcStep_error_iff {K : Type} [LinearOrderedField K] (c : DCCtx K)
    (idx : ℕ) (st : DCState K) :
    (∃ msg, dcStep c idx st = Except.error msg) ↔
      (idx % c.eval_freq = 0 ∧ dcHasBad c (dcRowMass c st) = true) := by
  rw [dcStep_eq]
  by_cases h : idx % c.eval_freq = 0 <;>
    by_cases hbad : dcHasBad c (dcRowMass c st) = true <;>
    simp [h, hbad]

/-- C3: `solver_dc` raises — aborting with an `Except.error` that carries
only the message "There is NaN in coupling. Please increase eps_base."
naming `eps_base`, no partial result — exactly when the run reaches an
evaluation checkpoint (`idx % eval_freq == 0`) at which the recomputed
row-mass vector `pi.sum(1)` of the updated coupling contains a NaN or
infinite entry.  Clause by clause: (i) a step errs iff it is a checkpoint
with a bad row mass; (ii) every raised message is the `eps_base` one;
(iii) at a clean checkpoint the step refreshes `m1` and breaks exactly when
the max absolute row-mass change is below `tol`; (iv) off checkpoints it
neither raises nor breaks; (v) a whole `solver_dc` call errs iff its run
reaches such a bad checkpoint. -/
theorem solver_dc_c3 {K : Type} [LinearOrderedField K] (c : DCCtx K)
    (init_pi : ℕ → ℕ → Flt K) (init_duals : (ℕ → Flt K) × (ℕ → Flt K))
    (niters : ℕ) :
    (∀ idx st, (∃ msg, dcStep c idx st = Except.error msg) ↔
      (idx % c.eval_freq = 0 ∧ dcHasBad c (dcRowMass c st) = true)) ∧
    (∀ idx st msg, dcStep c idx st = Except.error msg → msg = dcErrMsg) ∧
    (∀ idx st, idx % c.eval_freq = 0 → dcHasBad c (dcRowMass c st) = false →
      dcStep c idx st = Except.ok ({ dcBody c st with m1 := dcRowMass c st },
        Flt.flt (Flt.rmax c.n fun i => (Flt.sub (dcRowMass c st i) (st.m1 i)).abs)
          (Flt.real c.tol))) ∧
    (∀ idx st, idx % c.eval_freq ≠ 0 →
      dcStep c idx st = Except.ok (dcBody c st, false)) ∧
    ((∃ msg, solver_dc c init_pi init_duals niters = Except.error msg) ↔
      ∃ k, k < niters ∧
        ∃ s, dcTraceFrom c 0 (dcInit c init_pi init_duals) k = some s ∧
          k % c.eval_freq = 0 ∧ dcHasBad c (dcRowMass c s) = true) := by
  refine ⟨dcStep_error_iff c, ?_, ?_, ?_, ?_⟩
  · intro idx st msg h
    rw [dcStep_eq] at h
    by_cases hc : idx % c.eval_freq = 0
    · rw [if_pos hc] at h
      by_cases hbad : dcHasBad c (dcRowMass c st) = true
      · rw [if_pos hbad] at h
        exact (Except.error.inj h).symm
      · rw [if_neg hbad] at h
        exact absurd h (by simp)
    · rw [if_neg hc] at h
      exact absurd h (by simp)
  · intro idx st hc hbad
    rw [dcStep_eq, if_pos hc, if_neg (by simp [hbad])]
  · intro idx st hc
    rw [dcStep_eq, if_neg hc]
  · have hmap : (∃ msg, solver_dc c init_pi init_duals niters = Except.error msg) ↔
        (∃ msg, dcLoop c niters 0 (dcInit c init_pi init_duals) =
          Except.error msg) := by
      show (∃ msg, (dcLoop c niters 0 (dcInit c init_pi init_duals)).map _ =
        Except.error msg) ↔ _
      rcases h : dcLoop c niters 0 (dcInit c init_pi init_duals) with msg | st <;>
        simp [Except.map]
    rw [hmap, dcLoop_error_iff]
    constructor
    · rintro ⟨k, hk, s, htr, msg, herr⟩
      rw [Nat.zero_add] at herr
      exact ⟨k, hk, s, htr, (dcStep_error_iff c k s).mp ⟨msg, herr⟩⟩
    · rintro ⟨k, hk, s, htr, hcond⟩
      obtain ⟨msg, herr⟩ := (dcStep_error_iff c k s).mpr hcond
      exact ⟨k, hk, s, htr, msg, by rwa [Nat.zero_add]⟩

lemma FMat.ext' {K : Type} [LinearOrderedField K] {a b : FMat K}
    (hr : a.r = b.r) (hc : a.c = b.c) (he : ∀ i j, a.ent i j = b.ent i j) :
    a = b := by
  cases a
  cases b
  simp only at hr hc he
  subst hr
  subst hc
  congr
  funext i j
  exact he i j

lemma Flt.sub_real {K : Type} [LinearOrderedField K] (a b : K) :
    Flt.sub (Flt.real a) (Flt.real b) = Flt.real (a - b) := by
  show Flt.real (a + -b) = Flt.real (a - b)
  rw [← sub_eq_add_neg]

lemma Flt.div_real {K : Type} [LinearOrderedField K] (a b : K) (hb : b ≠ 0) :
    Flt.div (Flt.real a) (Flt.real b) = Flt.real (a / b) := by
  simp [Flt.div, hb]

lemma Flt.rsum_succ {K : Type} [LinearOrderedField K] (n : ℕ) (f : ℕ → Flt K) :
    Flt.rsum (n + 1) f = Flt.add (Flt.rsum n f) (f n) := by
  simp [Flt.rsum, List.range_succ]

lemma Flt.rsum_one {K : Type} [LinearOrderedField K] (f : ℕ → Flt K) :
    Flt.rsum 1 f = Flt.add (Flt.real 0) (f 0) := rfl

lemma Flt.rsum_real {K : Type} [LinearOrderedField K] (n : ℕ) (g : ℕ → K) :
    Flt.rsum n (fun i => Flt.real (g i)) =
      Flt.real (∑ k ∈ Finset.range n, g k) := by
  induction n with
  | zero => rfl
  | succ n ih => rw [Flt.rsum_succ, ih, Finset.sum_range_succ]; rfl

lemma Flt.fmin_inf_left {K : Type} [LinearOrderedField K] (x : Flt K) :
    Flt.fmin Flt.inf x = x := by
  cases x <;> rfl

lemma Flt.fmax_ninf_left {K : Type} [LinearOrderedField K] (x : Flt K) :
    Flt.fmax Flt.ninf x = x := by
  cases x <;> rfl

lemma Flt.fmin_self {K : Type} [LinearOrderedField K] (x : Flt K) :
    Flt.fmin x x = x := by
  cases x <;> simp [Flt.fmin]

lemma Flt.fmax_self {K : Type} [LinearOrderedField K] (x : Flt K) :
    Flt.fmax x x = x := by
  cases x <;> simp [Flt.fmax]

lemma Flt.rmin_succ {K : Type} [LinearOrderedField K] (n : ℕ) (f : ℕ → Flt K) :
    Flt.rmin (n + 1) f = Flt.fmin (Flt.rmin n f) (f n) := by
  simp [Flt.rmin, List.range_succ]

lemma Flt.rmax_succ {K : Type} [LinearOrderedField K] (n : ℕ) (f : ℕ → Flt K) :
    Flt.rmax (n + 1) f = Flt.fmax (Flt.rmax n f) (f n) := by
  simp [Flt.rmax, List.range_succ]

lemma Flt.rmin_const {K : Type} [LinearOrderedField K] (n : ℕ) (f : ℕ → Flt K)
    (v : Flt K) (hn : 0 < n) (hf : ∀ j < n, f j = v) : Flt.rmin n f = v := by
  induction n with
  | zero => omega
  | succ n ih =>
    rw [Flt.rmin_succ, hf n (by omega)]
    rcases Nat.eq_zero_or_pos n with h0 | hpos
    · subst h0
      show Flt.fmin Flt.inf v = v
      exact Flt.fmin_inf_left v
    · rw [ih hpos fun j hj => hf j (by omega), Flt.fmin_self]

lemma Flt.rmax_const {K : Type} [LinearOrderedField K] (n : ℕ) (f : ℕ → Flt K)
    (v : Flt K) (hn : 0 < n) (hf : ∀ j < n, f j = v) : Flt.rmax n f = v := by
  induction n with
  | zero => omega
  | succ n ih =>
    rw [Flt.rmax_succ, hf n (by omega)]
    rcases Nat.eq_zero_or_pos n with h0 | hpos
    · subst h0
      show Flt.fmax Flt.ninf v = v
      exact Flt.fmax_ninf_left v
    · rw [ih hpos fun j hj => hf j (by omega), Flt.fmax_self]

/-- The min-max normalization formula applied to a value equal to both the
column minimum and the column maximum is NaN, whatever the value. -/
lemma baryNorm_const_nan {K : Type} [LinearOrderedField K] (v : Flt K) :
    Flt.sub (Flt.div (Flt.mul (Flt.real 2) (Flt.sub v v)) (Flt.sub v v))
      (Flt.real 1) = Flt.nan := by
  cases v <;> simp [Flt.sub, Flt.neg, Flt.add, Flt.mul, Flt.div]

/-- C10: whenever the aggregated (pre-normalization) barycenter feature
matrix is constant along feature dimension `d` over the (at least one)
barycenter points, the `max − min` denominator of the final normalization
vanishes with no guard, and every returned entry of dimension `d` is NaN —
even though each per-individual division was floored by `1e-16`. -/
theorem update_barycenter_features_c10 {K : Type} [LinearOrderedField K]
    (plans features_list : List (FMat K)) (d : ℕ) (v : Flt K)
    (hn : 0 < (baryAgg plans features_list).r)
    (hconst : ∀ j < (baryAgg plans features_list).r,
      (baryAgg plans features_list).ent j d = v) :
    ∀ j < (baryAgg plans features_list).r,
      (update_barycenter_features plans features_list).ent d j = Flt.nan := by
  intro j hj
  show Flt.sub (Flt.div (Flt.mul (Flt.real 2)
      (Flt.sub ((baryAgg plans features_list).ent j d)
        (Flt.rmin (baryAgg plans features_list).r
          fun i => (baryAgg plans features_list).ent i d)))
      (Flt.sub (Flt.rmax (baryAgg plans features_list).r
          fun i => (baryAgg plans features_list).ent i d)
        (Flt.rmin (baryAgg plans features_list).r
          fun i => (baryAgg plans features_list).ent i d)))
      (Flt.real 1) = Flt.nan
  rw [Flt.rmin_const _ _ v hn hconst, Flt.rmax_const _ _ v hn hconst,
    hconst j hj]
  exact baryNorm_const_nan v

/-- Witness for C10 at the one-point instance `c10WitPlan`/`c10WitFeat`:
the aggregate's single dimension is constant (value `0`), and the returned
feature matrix is NaN there. -/
theorem update_barycenter_features_c10_witness :
    0 < (baryAgg [c10WitPlan] [c10WitFeat]).r ∧
      (∀ j < (baryAgg [c10WitPlan] [c10WitFeat]).r,
        (baryAgg [c10WitPlan] [c10WitFeat]).ent j 0 = Flt.real 0) ∧
      ∀ j < (baryAgg [c10WitPlan] [c10WitFeat]).r,
        (update_barycenter_features [c10WitPlan] [c10WitFeat]).ent 0 j = Flt.nan := by
  have hval : ∀ j, (baryAgg [c10WitPlan] [c10WitFeat]).ent j 0 = Flt.real 0 := by
    intro j
    show Flt.div
        (Flt.rsum 1 fun _ =>
          Flt.mul (Flt.mul (Flt.real (1 / ((1 : ℕ) : ℚ))) (Flt.real 1)) (Flt.real 0))
        (Flt.add (Flt.rsum 1 fun _ => Flt.real 1) (Flt.real (epsFloor ℚ))) = Flt.real 0
    rw [Flt.rsum_one, Flt.rsum_one]
    simp only [Flt.mul, Flt.add]
    rw [Flt.div_real _ _ (by norm_num [epsFloor])]
    norm_num
  exact ⟨Nat.one_pos, fun j _ => hval j,
    update_barycenter_features_c10 [c10WitPlan] [c10WitFeat] 0 (Flt.real 0)
      Nat.one_pos (fun j _ => hval j)⟩

/-- C4 as stated fails on a degenerate instance: with a single barycenter
point every feature dimension of the aggregate is constant, the min-max
normalization divides `0` by `0`, and the returned entry is NaN — not `+1`
or `−1` as the claim's "extremal points map to exactly −1 and +1" demands
of every input. -/
theorem update_barycenter_features_c4_cex :
    (update_barycenter_features [c4CexPlan] [c4CexFeat]).ent 0 0 = Flt.nan ∧
      (update_barycenter_features [c4CexPlan] [c4CexFeat]).ent 0 0 ≠ Flt.real 1 ∧
      (update_barycenter_features [c4CexPlan] [c4CexFeat]).ent 0 0 ≠ Flt.real (-1) := by
  have hconst : ∀ j < 1, (fun i => (baryAgg [c4CexPlan] [c4CexFeat]).ent i 0) j =
      (baryAgg [c4CexPlan] [c4CexFeat]).ent 0 0 := by
    intro j hj
    have hj0 : j = 0 := by omega
    subst hj0
    rfl
  have hnan : (update_barycenter_features [c4CexPlan] [c4CexFeat]).ent 0 0 = Flt.nan := by
    show Flt.sub (Flt.div (Flt.mul (Flt.real 2)
        (Flt.sub ((baryAgg [c4CexPlan] [c4CexFeat]).ent 0 0)
          (Flt.rmin 1 fun i => (baryAgg [c4CexPlan] [c4CexFeat]).ent i 0)))
        (Flt.sub (Flt.rmax 1 fun i => (baryAgg [c4CexPlan] [c4CexFeat]).ent i 0)
          (Flt.rmin 1 fun i => (baryAgg [c4CexPlan] [c4CexFeat]).ent i 0)))
        (Flt.real 1) = Flt.nan
    rw [Flt.rmin_const 1 _ _ Nat.one_pos hconst, Flt.rmax_const 1 _ _ Nat.one_pos hconst]
    exact baryNorm_const_nan _
  refine ⟨hnan, ?_, ?_⟩ <;> rw [hnan] <;> exact fun h => Flt.noConfusion h

lemma Flt.add_real {K : Type} [LinearOrderedField K] (a b : K) :
    Flt.add (Flt.real a) (Flt.real b) = Flt.real (a + b) := rfl

lemma Flt.mul_real {K : Type} [LinearOrderedField K] (a b : K) :
    Flt.mul (Flt.real a) (Flt.real b) = Flt.real (a * b) := rfl

lemma Flt.fmin_real {K : Type} [LinearOrderedField K] (a b : K) :
    Flt.fmin (Flt.real a) (Flt.real b) = Flt.real (min a b) := rfl

lemma Flt.fmax_real {K : Type} [LinearOrderedField K] (a b : K) :
    Flt.fmax (Flt.real a) (Flt.real b) = Flt.real (max a b) := rfl

lemma kminRange_succ {K : Type} [LinearOrderedField K] (n : ℕ) (g : ℕ → K) :
    kminRange (n + 1) g = min (kminRange n g) (g n) := by
  simp [kminRange, List.range_succ]

lemma kmaxRange_succ {K : Type} [LinearOrderedField K] (n : ℕ) (g : ℕ → K) :
    kmaxRange (n + 1) g = max (kmaxRange n g) (g n) := by
  simp [kmaxRange, List.range_succ]

lemma Flt.rmin_real {K : Type} [LinearOrderedField K] :
    ∀ (n : ℕ), 0 < n → ∀ (g : ℕ → K),
      Flt.rmin n (fun j => Flt.real (g j)) = Flt.real (kminRange n g) := by
  intro n
  induction n with
  | zero => omega
  | succ n ih =>
    intro _ g
    rw [Flt.rmin_succ, kminRange_succ]
    rcases Nat.eq_zero_or_pos n with h0 | hpos
    · subst h0
      show Flt.fmin Flt.inf (Flt.real (g 0)) = Flt.real (min (g 0) (g 0))
      rw [Flt.fmin_inf_left, min_self]
    · rw [ih hpos, Flt.fmin_real]

lemma Flt.rmax_real {K : Type} [LinearOrderedField K] :
    ∀ (n : ℕ), 0 < n → ∀ (g : ℕ → K),
      Flt.rmax n (fun j => Flt.real (g j)) = Flt.real (kmaxRange n g) := by
  intro n
  induction n with
  | zero => omega
  | succ n ih =>
    intro _ g
    rw [Flt.rmax_succ, kmaxRange_succ]
    rcases Nat.eq_zero_or_pos n with h0 | hpos
    · subst h0
      show Flt.fmax Flt.ninf (Flt.real (g 0)) = Flt.real (max (g 0) (g 0))
      rw [Flt.fmax_ninf_left, max_self]
    · rw [ih hpos, Flt.fmax_real]

lemma epsFloor_pos {K : Type} [LinearOrderedField K] : 0 < epsFloor K := by
  norm_num [epsFloor]

/-- One lifted accumuland computes exactly the spec's exact-arithmetic
accumuland: the floored denominator is strictly positive, so no division
junk arises. -/
lemma baryAcc_lift {K : Type} [LinearOrderedField K] (N : ℕ) (pi f : KMat K)
    (hnn : ∀ k j, 0 ≤ pi.ent k j) :
    baryAcc N (KMat.lift pi) (KMat.lift f) = KMat.lift (specAcc N pi f) := by
  apply FMat.ext'
  · rfl
  · rfl
  intro j d
  show Flt.div
      (Flt.rsum pi.r fun k =>
        Flt.mul (Flt.mul (Flt.real (1 / (N : K))) (Flt.real (pi.ent k j)))
          (Flt.real (f.ent d k)))
      (Flt.add (Flt.rsum pi.r fun k => Flt.real (pi.ent k j))
        (Flt.real (epsFloor K)))
    = Flt.real ((specAcc N pi f).ent j d)
  have h1 : (fun k =>
      Flt.mul (Flt.mul (Flt.real (1 / (N : K))) (Flt.real (pi.ent k j)))
        (Flt.real (f.ent d k)))
      = fun k => Flt.real (1 / (N : K) * pi.ent k j * f.ent d k) := by
    funext k
    rfl
  rw [h1, Flt.rsum_real, Flt.rsum_real, Flt.add_real]
  have hden : (∑ k ∈ Finset.range pi.r, pi.ent k j) + epsFloor K ≠ 0 :=
    ne_of_gt (add_pos_of_nonneg_of_pos
      (Finset.sum_nonneg fun k _ => hnn k j) epsFloor_pos)
  rw [Flt.div_real _ _ hden]
  rfl

lemma FMat.add_lift {K : Type} [LinearOrderedField K] (x y : KMat K) :
    FMat.add (KMat.lift x) (KMat.lift y) = KMat.lift (KMat.add x y) :=
  FMat.ext' rfl rfl fun _ _ => rfl

lemma foldl_add_lift {K : Type} [LinearOrderedField K] :
    ∀ (l : List (KMat K)) (a : KMat K),
      (l.map KMat.lift).foldl FMat.add (KMat.lift a) =
        KMat.lift (l.foldl KMat.add a) := by
  intro l
  induction l with
  | nil => intro a; rfl
  | cons x xs ih =>
    intro a
    show (xs.map KMat.lift).foldl FMat.add (FMat.add (KMat.lift a) (KMat.lift x)) =
      KMat.lift (xs.foldl KMat.add (KMat.add a x))
    rw [FMat.add_lift, ih]

/-- The lifted aggregate computes exactly the spec's exact-arithmetic
aggregate (for a nonempty family of nonnegative plans). -/
lemma baryAgg_lift {K : Type} [LinearOrderedField K]
    (plans features_list : List (KMat K))
    (hnn : ∀ p ∈ plans, ∀ k j, 0 ≤ p.ent k j)
    (hne : plans.zip features_list ≠ []) :
    baryAgg (plans.map KMat.lift) (features_list.map KMat.lift)
      = KMat.lift (specAgg plans features_list) := by
  unfold baryAgg specAgg
  rw [List.zip_map, List.map_map, List.length_map]
  have hmap : (plans.zip features_list).map
      ((fun pf => baryAcc features_list.length pf.1 pf.2) ∘ Prod.map KMat.lift KMat.lift)
      = (plans.zip features_list).map
        (KMat.lift ∘ fun pf => specAcc features_list.length pf.1 pf.2) := by
    apply List.map_congr_left
    intro pf hpf
    show baryAcc features_list.length (KMat.lift pf.1) (KMat.lift pf.2) = _
    exact baryAcc_lift features_list.length pf.1 pf.2
      (hnn pf.1 (List.of_mem_zip hpf).1)
  rw [hmap, ← List.map_map]
  rcases hL : (plans.zip features_list).map
      (fun pf => specAcc features_list.length pf.1 pf.2) with _ | ⟨a, rest⟩
  · rw [List.map_eq_nil_iff] at hL
    exact absurd hL hne
  · rw [hL]
    show (rest.map KMat.lift).foldl FMat.add (KMat.lift a) = _
    rw [foldl_add_lift]

/-- C4 (amended): for a nonempty family of entrywise-nonnegative plans,
(i) the aggregated pre-normalization barycenter feature matrix is exactly
`Σ_i (1/N)·π_iᵗ·F_iᵗ/(colsum(π_i)+1e-16)` computed in exact arithmetic;
(ii) *provided* a feature dimension is not constant over the barycenter
points (`min ≠ max` — the condition the code never checks, cf. C10), the
returned matrix is the exact min-max rescaling of that dimension to
`[-1, 1]`, transposed; and (iii) on such a dimension the extremal
barycenter points map to exactly `+1` and `−1`. -/
theorem update_barycenter_features_c4 {K : Type} [LinearOrderedField K]
    (plans features_list : List (KMat K))
    (hnn : ∀ p ∈ plans, ∀ k j, 0 ≤ p.ent k j)
    (hr : 0 < (specAgg plans features_list).r) :
    baryAgg (plans.map KMat.lift) (features_list.map KMat.lift)
        = KMat.lift (specAgg plans features_list) ∧
    (∀ d j,
      kminRange (specAgg plans features_list).r
          (fun i => (specAgg plans features_list).ent i d) ≠
        kmaxRange (specAgg plans features_list).r
          (fun i => (specAgg plans features_list).ent i d) →
      (update_barycenter_features (plans.map KMat.lift)
          (features_list.map KMat.lift)).ent d j
        = Flt.real ((specUpdate plans features_list).ent d j)) ∧
    (∀ d j,
      kminRange (specAgg plans features_list).r
          (fun i => (specAgg plans features_list).ent i d) ≠
        kmaxRange (specAgg plans features_list).r
          (fun i => (specAgg plans features_list).ent i d) →
      ((specAgg plans features_list).ent j d =
          kmaxRange (specAgg plans features_list).r
            (fun i => (specAgg plans features_list).ent i d) →
        (specUpdate plans features_list).ent d j = 1) ∧
      ((specAgg plans features_list).ent j d =
          kminRange (specAgg plans features_list).r
            (fun i => (specAgg plans features_list).ent i d) →
        (specUpdate plans features_list).ent d j = -1)) := by
  have hne : plans.zip features_list ≠ [] := by
    intro h
    have hr0 : (specAgg plans features_list).r = 0 := by
      unfold specAgg
      rw [h]
      rfl
    omega
  have h1 := baryAgg_lift plans features_list hnn hne
  refine ⟨h1, ?_, ?_⟩
  · intro d j hd
    have hden : kmaxRange (specAgg plans features_list).r
          (fun i => (specAgg plans features_list).ent i d) -
        kminRange (specAgg plans features_list).r
          (fun i => (specAgg plans features_list).ent i d) ≠ 0 :=
      sub_ne_zero.mpr (Ne.symm hd)
    show Flt.sub
        (Flt.div (Flt.mul (Flt.real 2)
          (Flt.sub ((baryAgg (plans.map KMat.lift) (features_list.map KMat.lift)).ent j d)
            (Flt.rmin (baryAgg (plans.map KMat.lift) (features_list.map KMat.lift)).r
              fun i => (baryAgg (plans.map KMat.lift) (features_list.map KMat.lift)).ent i d)))
          (Flt.sub
            (Flt.rmax (baryAgg (plans.map KMat.lift) (features_list.map KMat.lift)).r
              fun i => (baryAgg (plans.map KMat.lift) (features_list.map KMat.lift)).ent i d)
            (Flt.rmin (baryAgg (plans.map KMat.lift) (features_list.map KMat.lift)).r
              fun i => (baryAgg (plans.map KMat.lift) (features_list.map KMat.lift)).ent i d)))
        (Flt.real 1)
      = Flt.real ((specUpdate plans features_list).ent d j)
    rw [h1]
    show Flt.sub
        (Flt.div (Flt.mul (Flt.real 2)
          (Flt.sub (Flt.real ((specAgg plans features_list).ent j d))
            (Flt.rmin (specAgg plans features_list).r
              fun i => Flt.real ((specAgg plans features_list).ent i d))))
          (Flt.sub
            (Flt.rmax (specAgg plans features_list).r
              fun i => Flt.real ((specAgg plans features_list).ent i d))
            (Flt.rmin (specAgg plans features_list).r
              fun i => Flt.real ((specAgg plans features_list).ent i d))))
        (Flt.real 1)
      = Flt.real ((specUpdate plans features_list).ent d j)
    rw [Flt.rmin_real _ hr, Flt.rmax_real _ hr]
    simp only [Flt.sub_real, Flt.mul_real]
    rw [Flt.div_real _ _ hden]
    rw [Flt.sub_real]
    rfl
  · intro d j hd
    have hden : kmaxRange (specAgg plans features_list).r
          (fun i => (specAgg plans features_list).ent i d) -
        kminRange (specAgg plans features_list).r
          (fun i => (specAgg plans features_list).ent i d) ≠ 0 :=
      sub_ne_zero.mpr (Ne.symm hd)
    constructor
    · intro hmax
      show 2 * ((specAgg plans features_list).ent j d -
          kminRange (specAgg plans features_list).r
            (fun i => (specAgg plans features_list).ent i d)) /
          (kmaxRange (specAgg plans features_list).r
            (fun i => (specAgg plans features_list).ent i d) -
          kminRange (specAgg plans features_list).r
            (fun i => (specAgg plans features_list).ent i d)) - 1 = 1
      rw [hmax, mul_div_assoc, div_self hden, mul_one]
      norm_num
    · intro hmin
      show 2 * ((specAgg plans features_list).ent j d -
          kminRange (specAgg plans features_list).r
            (fun i => (specAgg plans features_list).ent i d)) /
          (kmaxRange (specAgg plans features_list).r
            (fun i => (specAgg plans features_list).ent i d) -
          kminRange (specAgg plans features_list).r
            (fun i => (specAgg plans features_list).ent i d)) - 1 = -1
      rw [hmin, sub_self, mul_zero, zero_div]
      norm_num

/-- Witness for the amended C4 at the concrete two-barycenter-point
instance `c4WitPlan`/`c4WitFeat` over `ℚ`. -/
theorem update_barycenter_features_c4_witness :
    baryAgg ([c4WitPlan].map KMat.lift) ([c4WitFeat].map KMat.lift)
        = KMat.lift (specAgg [c4WitPlan] [c4WitFeat]) ∧
    (∀ d j,
      kminRange (specAgg [c4WitPlan] [c4WitFeat]).r
          (fun i => (specAgg [c4WitPlan] [c4WitFeat]).ent i d) ≠
        kmaxRange (specAgg [c4WitPlan] [c4WitFeat]).r
          (fun i => (specAgg [c4WitPlan] [c4WitFeat]).ent i d) →
      (update_barycenter_features ([c4WitPlan].map KMat.lift)
          ([c4WitFeat].map KMat.lift)).ent d j
        = Flt.real ((specUpdate [c4WitPlan] [c4WitFeat]).ent d j)) ∧
    (∀ d j,
      kminRange (specAgg [c4WitPlan] [c4WitFeat]).r
          (fun i => (specAgg [c4WitPlan] [c4WitFeat]).ent i d) ≠
        kmaxRange (specAgg [c4WitPlan] [c4WitFeat]).r
          (fun i => (specAgg [c4WitPlan] [c4WitFeat]).ent i d) →
      ((specAgg [c4WitPlan] [c4WitFeat]).ent j d =
          kmaxRange (specAgg [c4WitPlan] [c4WitFeat]).r
            (fun i => (specAgg [c4WitPlan] [c4WitFeat]).ent i d) →
        (specUpdate [c4WitPlan] [c4WitFeat]).ent d j = 1) ∧
      ((specAgg [c4WitPlan] [c4WitFeat]).ent j d =
          kminRange (specAgg [c4WitPlan] [c4WitFeat]).r
            (fun i => (specAgg [c4WitPlan] [c4WitFeat]).ent i d) →
        (specUpdate [c4WitPlan] [c4WitFeat]).ent d j = -1)) :=
  update_barycenter_features_c4 [c4WitPlan] [c4WitFeat]
    (by
      intro p hp k j
      rw [List.mem_singleton] at hp
      subst hp
      show (0 : ℚ) ≤ if j = 0 then 1 else 3
      split <;> norm_num)
    (by
      show (0 : ℕ) < 2
      norm_num)

/-- Everything a successful `compute_all_ot_plans` run guarantees: one
plan, one loss record and one collaborator call per individual; call `k`
warm-started from `plans[i0+k]`; the first call handed the incoming mask;
and every later call handed (wrapped in `some`) the mask returned by the
immediately preceding call. -/
lemma computeAllAux_ok {K M : Type} [LinearOrderedField K] (cfg : BaryCfg K)
    (c2f : C2FCall K M → C2FRet K M) (plans : Option (List (FMat K)))
    (geo : FMat K) (bw : FVec K) (bf : FMat K) (ms : Option (List ℕ))
    (solver : String) :
    ∀ (pairs : List (FMat K × FVec K)) (i0 : ℕ) (mask0 : Option M) r,
      computeAllAux cfg c2f plans geo bw bf ms solver pairs i0 mask0 =
        Except.ok r →
      r.1.length = pairs.length ∧
      r.2.1.length = pairs.length ∧
      r.2.2.2.length = pairs.length ∧
      (∀ k cl, r.2.2.2[k]? = some cl →
        cl.init_plan = plans.bind fun ps => ps[i0 + k]?) ∧
      (∀ cl, r.2.2.2[0]? = some cl → cl.sparsity_mask = mask0) ∧
      (∀ k cl cl', r.2.2.2[k]? = some cl → r.2.2.2[k + 1]? = some cl' →
        cl'.sparsity_mask = some ((c2f cl).mask)) := by
  intro pairs
  induction pairs with
  | nil =>
    intro i0 mask0 r h
    rw [computeAllAux] at h
    cases h
    refine ⟨rfl, rfl, rfl, ?_, ?_, ?_⟩
    · intro k cl hcl
      simp at hcl
    · intro cl hcl
      simp at hcl
    · intro k cl cl' hcl hcl'
      simp at hcl
  | cons p rest ih =>
    obtain ⟨features, weights⟩ := p
    intro i0 mask0 r h
    simp only [computeAllAux] at h
    split at h
    · exact absurd h (by simp)
    · rcases haux : computeAllAux cfg c2f plans geo bw bf ms solver rest
          (i0 + 1) (some ((c2f _).mask)) with e | r'
      · rw [haux] at h
        exact absurd h (by simp [Except.map])
      · rw [haux] at h
        simp only [Except.map] at h
        cases h
        obtain ⟨hl1, hl2, hl3, hplan, hmask0, hchain⟩ :=
          ih (i0 + 1) (some ((c2f _).mask)) r' haux
        refine ⟨by simp [hl1], by simp [hl2], by simp [hl3], ?_, ?_, ?_⟩
        · intro k cl hcl
          rcases k with _ | k
          · rw [List.getElem?_cons_zero] at hcl
            cases hcl
            rfl
          · rw [List.getElem?_cons_succ] at hcl
            rw [hplan k cl hcl]
            rw [show i0 + 1 + k = i0 + (k + 1) by omega]
        · intro cl hcl
          rw [List.getElem?_cons_zero] at hcl
          cases hcl
          rfl
        · intro k cl cl' hcl hcl'
          rcases k with _ | k
          · rw [List.getElem?_cons_zero] at hcl
            cases hcl
            rw [List.getElem?_cons_succ] at hcl'
            exact hmask0 cl' hcl'
          · rw [List.getElem?_cons_succ] at hcl hcl'
            exact hchain k cl cl' hcl hcl'

/-- A successful `fit` loop accumulates one loss-record list per round,
each of the same per-round length as `zip(features_list, weights_list)`. -/
lemma fitAux_ok_losses {K M : Type} [LinearOrderedField K] (cfg : BaryCfg K)
    (c2f : C2FCall K M → C2FRet K M) (wl : List (FVec K)) (fl : List (FMat K))
    (geo : FMat K) (bw : FVec K) (ms : Option (List ℕ)) (solver : String) :
    ∀ (nits : ℕ) (plans : Option (List (FMat K))) (mask : Option M)
      (bfeat : FMat K) (losses : List (List (LossRec K)))
      (log : List (List (C2FCall K M)))
      (r : FMat K × Option (List (FMat K)) × List (List (LossRec K)) ×
        List (List (C2FCall K M))),
      fitAux cfg c2f wl fl geo bw ms solver nits plans mask bfeat losses log =
        Except.ok r →
      (∀ ls ∈ losses, ls.length = (fl.zip wl).length) →
      r.2.2.1.length = losses.length + nits ∧
        ∀ ls ∈ r.2.2.1, ls.length = (fl.zip wl).length := by
  intro nits
  induction nits with
  | zero =>
    intro plans mask bfeat losses log r h hin
    rw [fitAux] at h
    cases h
    exact ⟨rfl, hin⟩
  | succ n ih =>
    intro plans mask bfeat losses log r h hin
    rw [fitAux] at h
    rcases hca : computeAllAux cfg c2f plans geo bw bfeat ms solver
        (fl.zip wl) 0 mask with e | rc
    · rw [hca] at h
      exact Except.noConfusion h
    · rw [hca] at h
      have h' : fitAux cfg c2f wl fl geo bw ms solver n (some rc.1) rc.2.2.1
          (update_barycenter_features rc.1 fl) (losses ++ [rc.2.1])
          (log ++ [rc.2.2.2]) = Except.ok r := h
      have hin' : ∀ ls ∈ losses ++ [rc.2.1], ls.length = (fl.zip wl).length := by
        intro ls hls
        rcases List.mem_append.mp hls with hl | hl
        · exact hin ls hl
        · rw [List.mem_singleton] at hl
          subst hl
          exact (computeAllAux_ok cfg c2f plans geo bw bfeat ms solver
            (fl.zip wl) 0 mask rc hca).2.1
      obtain ⟨hlen, hmem⟩ := ih (some rc.1) rc.2.2.1
        (update_barycenter_features rc.1 fl) (losses ++ [rc.2.1])
        (log ++ [rc.2.2.2]) r h' hin'
      refine ⟨?_, hmem⟩
      rw [hlen, List.length_append, List.length_singleton]
      omega

/-- C8: the barycenter weights returned by a successful `fit` are exactly
the weights produced at initialization — uniform over `barycenter_size`
when none are supplied, otherwise the user's vector (`fitInitWeights`);
no round of the loop touches them. -/
theorem fit_c8 {K M : Type} [LinearOrderedField K] (cfg : BaryCfg K)
    (c2f : C2FCall K M → C2FRet K M) (weights_list : List (FVec K))
    (features_list : List (FMat K)) (geometry_embedding : FMat K)
    (barycenter_size : Option ℕ) (init_barycenter_weights : Option (FVec K))
    (init_barycenter_features : Option (FMat K)) (solver : String)
    (mesh_sample : Option (List ℕ)) (nits_barycenter : ℕ) (ksqrt : K → K)
    (res : FVec K × FMat K × Option (List (FMat K)) × List (List (LossRec K)))
    (h : fit cfg c2f weights_list features_list geometry_embedding
      barycenter_size init_barycenter_weights init_barycenter_features solver
      mesh_sample nits_barycenter ksqrt = Except.ok res) :
    res.1 = fitInitWeights weights_list barycenter_size
      init_barycenter_weights := by
  simp only [fit] at h
  rcases hfa : fitAux cfg c2f weights_list features_list geometry_embedding
      (fitInitWeights weights_list barycenter_size init_barycenter_weights)
      mesh_sample solver nits_barycenter none none
      (fitInitFeatures ksqrt features_list
        (fitBarycenterSize weights_list barycenter_size)
        init_barycenter_features) [] [] with e | r
  · rw [hfa] at h
    exact Except.noConfusion h
  · rw [hfa] at h
    have h' : Except.ok (ε := String)
        (fitInitWeights weights_list barycenter_size init_barycenter_weights,
          r.1, r.2.1, r.2.2.1) = Except.ok res := h
    cases h'
    rfl

/-- Witness for C8: the two-round `fitWitRun` succeeds and returns the
uniform initialization weights untouched. -/
theorem fit_c8_witness :
    fitWitRun = Except.ok fitWitRes ∧
      fitWitRes.1 = fitInitWeights fitWitWeights none none :=
  ⟨rfl, fit_c8 witCfg fitWitC2f fitWitWeights fitWitFeats witGeo none none
    none "mm" none 2 id fitWitRes rfl⟩

/-- C9: a successful `fit` call with `R = nits_barycenter` rounds and `N`
individuals executes exactly `R` rounds with no early exit and returns a
loss history of length `R`, each round holding exactly `N` per-individual
`(loss, loss_steps, loss_times)` records — the individuals' point counts
being arbitrary (only their number enters). -/
theorem fit_c9 {K M : Type} [LinearOrderedField K] (cfg : BaryCfg K)
    (c2f : C2FCall K M → C2FRet K M) (weights_list : List (FVec K))
    (features_list : List (FMat K)) (geometry_embedding : FMat K)
    (barycenter_size : Option ℕ) (init_barycenter_weights : Option (FVec K))
    (init_barycenter_features : Option (FMat K)) (solver : String)
    (mesh_sample : Option (List ℕ)) (N nits_barycenter : ℕ) (ksqrt : K → K)
    (res : FVec K × FMat K × Option (List (FMat K)) × List (List (LossRec K)))
    (hw : weights_list.length = N) (hf : features_list.length = N)
    (h : fit cfg c2f weights_list features_list geometry_embedding
      barycenter_size init_barycenter_weights init_barycenter_features solver
      mesh_sample nits_barycenter ksqrt = Except.ok res) :
    res.2.2.2.length = nits_barycenter ∧
      ∀ ls ∈ res.2.2.2, ls.length = N := by
  simp only [fit] at h
  rcases hfa : fitAux cfg c2f weights_list features_list geometry_embedding
      (fitInitWeights weights_list barycenter_size init_barycenter_weights)
      mesh_sample solver nits_barycenter none none
      (fitInitFeatures ksqrt features_list
        (fitBarycenterSize weights_list barycenter_size)
        init_barycenter_features) [] [] with e | r
  · rw [hfa] at h
    exact Except.noConfusion h
  · rw [hfa] at h
    have h' : Except.ok (ε := String)
        (fitInitWeights weights_list barycenter_size init_barycenter_weights,
          r.1, r.2.1, r.2.2.1) = Except.ok res := h
    cases h'
    have hzip : (features_list.zip weights_list).length = N := by
      rw [List.length_zip, hw, hf, min_self]
    obtain ⟨hlen, hmem⟩ := fitAux_ok_losses cfg c2f weights_list features_list
      geometry_embedding
      (fitInitWeights weights_list barycenter_size init_barycenter_weights)
      mesh_sample solver nits_barycenter none none
      (fitInitFeatures ksqrt features_list
        (fitBarycenterSize weights_list barycenter_size)
        init_barycenter_features) [] [] r hfa (by simp)
    constructor
    · show r.2.2.1.length = nits_barycenter
      rw [hlen]
      simp
    · show ∀ ls ∈ r.2.2.1, ls.length = N
      intro ls hls
      rw [hzip] at hmem
      exact hmem ls hls

/-- Witness for C9: the two-round, two-individual `fitWitRun` (point
counts 1 and 2, feature dimensionality 1) succeeds with a loss history of
length 2, each round holding exactly 2 records. -/
theorem fit_c9_witness :
    fitWitWeights.length = 2 ∧ fitWitFeats.length = 2 ∧
      fitWitRun = Except.ok fitWitRes ∧
      fitWitRes.2.2.2.length = 2 ∧ ∀ ls ∈ fitWitRes.2.2.2, ls.length = 2 :=
  ⟨rfl, rfl, rfl,
    (fit_c9 witCfg fitWitC2f fitWitWeights fitWitFeats witGeo none none none
      "mm" none 2 2 id fitWitRes rfl rfl rfl).1,
    (fit_c9 witCfg fitWitC2f fitWitWeights fitWitFeats witGeo none none none
      "mm" none 2 2 id fitWitRes rfl rfl rfl).2⟩

/-- C1 as stated fails: in a round-0 `compute_all_ot_plans` run (no
previous plans, no previous sparsity mask) with two individuals, the
*second* individual's coarse-to-fine call already receives the sparsity
mask returned by the first individual's call (`some 7` here), not `none`:
the mask is a single loop-shared variable, not per-individual state. -/
theorem compute_all_c1_cex :
    c1Run = Except.ok c1Res ∧
      c1Res.2.2.2.length = 2 ∧
      (c1Res.2.2.2[0]?).map (fun cl => cl.sparsity_mask) = some none ∧
      (c1Res.2.2.2[1]?).map (fun cl => cl.sparsity_mask) = some (some 7) := by
  exact ⟨rfl, rfl, rfl, rfl⟩

/-- C1 (amended): within one `compute_all_ot_plans` run, call `k` is
warm-started from `plans[k]` — so every individual of round 0, where `fit`
passes `plans = None`, gets no warm-start plan — while the sparsity mask
is a single value threaded sequentially: the first call receives the
incoming mask (`None` in round 0), and each subsequent call receives the
mask returned by the immediately preceding call.  The final conjunct shows
`fit` starts its round loop from `plans = None` and `sparsity_mask =
None`, handing each round's outputs to the next. -/
theorem compute_all_c1 {K M : Type} [LinearOrderedField K] (cfg : BaryCfg K)
    (c2f : C2FCall K M → C2FRet K M) (plans : Option (List (FMat K)))
    (geo : FMat K) (bw : FVec K) (bf : FMat K) (ms : Option (List ℕ))
    (solver : String) (pairs : List (FMat K × FVec K)) (mask0 : Option M)
    (r : List (FMat K) × List (LossRec K) × Option M × List (C2FCall K M))
    (h : computeAllAux cfg c2f plans geo bw bf ms solver pairs 0 mask0 =
      Except.ok r) :
    (∀ (k : ℕ) (cl : C2FCall K M), r.2.2.2[k]? = some cl →
      cl.init_plan = plans.bind fun ps => ps[k]?) ∧
    (∀ (cl : C2FCall K M), r.2.2.2[0]? = some cl → cl.sparsity_mask = mask0) ∧
    (∀ (k : ℕ) (cl cl' : C2FCall K M), r.2.2.2[k]? = some cl →
      r.2.2.2[k + 1]? = some cl' →
      cl'.sparsity_mask = some ((c2f cl).mask)) ∧
    (∀ (wl : List (FVec K)) (fl : List (FMat K)) (bsize : Option ℕ)
      (iw : Option (FVec K)) (ifeat : Option (FMat K)) (solver' : String)
      (ms' : Option (List ℕ)) (nits : ℕ) (ksqrt : K → K),
      fit cfg c2f wl fl geo bsize iw ifeat solver' ms' nits ksqrt =
        (fitAux cfg c2f wl fl geo (fitInitWeights wl bsize iw) ms' solver'
            nits none none
            (fitInitFeatures ksqrt fl (fitBarycenterSize wl bsize) ifeat)
            [] []).map
          fun r' => (fitInitWeights wl bsize iw, r'.1, r'.2.1, r'.2.2.1)) := by
  obtain ⟨_, _, _, hplan, hmask0, hchain⟩ :=
    computeAllAux_ok cfg c2f plans geo bw bf ms solver pairs 0 mask0 r h
  refine ⟨?_, hmask0, hchain, ?_⟩
  · intro k cl hcl
    rw [hplan k cl hcl, Nat.zero_add]
  · intro wl fl bsize iw ifeat solver' ms' nits ksqrt
    rfl

/-- Witness for the amended C1 at the concrete round-0 run `c1Run`. -/
theorem compute_all_c1_witness :
    (∀ (k : ℕ) (cl : C2FCall ℚ ℕ), c1Res.2.2.2[k]? = some cl →
      cl.init_plan = (none : Option (List (FMat ℚ))).bind fun ps => ps[k]?) ∧
    (∀ (cl : C2FCall ℚ ℕ), c1Res.2.2.2[0]? = some cl →
      cl.sparsity_mask = (none : Option ℕ)) ∧
    (∀ (k : ℕ) (cl cl' : C2FCall ℚ ℕ), c1Res.2.2.2[k]? = some cl →
      c1Res.2.2.2[k + 1]? = some cl' →
      cl'.sparsity_mask = some ((c1C2f cl).mask)) ∧
    (∀ (wl : List (FVec ℚ)) (fl : List (FMat ℚ)) (bsize : Option ℕ)
      (iw : Option (FVec ℚ)) (ifeat : Option (FMat ℚ)) (solver' : String)
      (ms' : Option (List ℕ)) (nits : ℕ) (ksqrt : ℚ → ℚ),
      fit witCfg c1C2f wl fl witGeo bsize iw ifeat solver' ms' nits ksqrt =
        (fitAux witCfg c1C2f wl fl witGeo (fitInitWeights wl bsize iw) ms'
            solver' nits none none
            (fitInitFeatures ksqrt fl (fitBarycenterSize wl bsize) ifeat)
            [] []).map
          fun r' => (fitInitWeights wl bsize iw, r'.1, r'.2.1, r'.2.2.1)) :=
  compute_all_c1 witCfg c1C2f none witGeo witBW witBF none "mm"
    [(witBF, witBW), (witBF, witBW)] none c1Res rfl

end Fugw
